import Mathlib

/-!
Verification of the KCET College Compass cutoff-matching engine
(`src/app.py`, route `predict`, lines 623-850) against its specification.

The engine is shallowly embedded: the catalog is a `List Entry`, a request is
a `Request`, and `predict` mirrors the control flow of the `predict` route
from the point where the JSON body has been parsed and the three required
fields are known to be present (the earlier steps are plain plumbing).

Modelling conventions:
* Python strings are Lean `String`s; `str.lower()` is modelled character-wise
  for ASCII (`asciiLower`), `str.strip()` / `str.split()` use the Python
  whitespace table (`isPySpace`).
* Python `int` arithmetic is `Int`; the only floating-point computation in
  the route (the `include_nearby` rank window, lines 743-745) is modelled
  bit-exactly as IEEE-754 binary64 round-to-nearest-even (`roundBin64`,
  `fMul`), so that `int(rank * (1 + 0.15))` is reproduced including its
  rounding artefacts (e.g. `int(100 * 1.15) = 114`).
* `difflib.get_close_matches(w, keys, n=1, cutoff=0.6)` is modelled exactly
  (Ratcliff/Obershelp matching via `find_longest_match` recursion); the
  float comparisons `ratio >= 0.6` and score ordering are replaced by the
  equivalent exact rational comparisons, which agree with the binary64
  comparisons for all string lengths that arise here.
* The float `rank_diff` percentage `((cutoff - rank) / rank) * 100` is kept
  as the exact unreduced fraction `((cutoff - rank) * 100, rank)`.
* The only exception that can be raised inside the per-record `try` block
  (lines 778-823) for well-typed records is the `ZeroDivisionError` of the
  `rank_diff` computation when `rank = 0`; the `except` handler skips the
  record, which the embedding models by an explicit `rank = 0` test placed
  after the dedup-key insertion, exactly where the exception occurs.
-/

namespace KCET

/-- Python whitespace code points (the `str.isspace` table used by
`str.strip()` and `str.split()`). -/
def isPySpace (c : Char) : Bool :=
  c.toNat ∈ [9, 10, 11, 12, 13, 28, 29, 30, 31, 32, 133, 160, 5760,
    8192, 8193, 8194, 8195, 8196, 8197, 8198, 8199, 8200, 8201, 8202,
    8232, 8233, 8239, 8287, 12288]

/-- ASCII case folding, modelling Python `str.lower()` character-wise. -/
def asciiLower (c : Char) : Char :=
  if 65 ≤ c.toNat ∧ c.toNat ≤ 90 then Char.ofNat (c.toNat + 32) else c

/-- `str.strip()`: drop whitespace from both ends. -/
def stripEnds (l : List Char) : List Char :=
  (((l.dropWhile isPySpace).reverse.dropWhile isPySpace)).reverse

/-- `str.lower()` on a character list. -/
def pyLowerL (l : List Char) : List Char := l.map asciiLower

/-- `.replace(' ', '')`. -/
def dropSpaces (l : List Char) : List Char := l.filter (fun c => !(c == ' '))

/-- `.replace('&', 'and')`. -/
def ampToAnd (l : List Char) : List Char :=
  l.flatMap (fun c => if c = '&' then ['a', 'n', 'd'] else [c])

/-- The `norm` lambda of line 699 on a character list:
`s.strip().lower().replace(' ', '').replace('&', 'and')`. -/
def pyNormL (l : List Char) : List Char :=
  ampToAnd (dropSpaces (pyLowerL (stripEnds l)))

/-- The `norm` lambda of line 699 (string inputs are always strings here, so
the `isinstance` branch is the string branch). -/
def pyNorm (s : String) : String := ⟨pyNormL s.data⟩

/-- Lexicographic code-point order on character lists (Python string `<`). -/
def lexLt : List Char → List Char → Bool
  | [], [] => false
  | [], _ :: _ => true
  | _ :: _, [] => false
  | a :: as, b :: bs => if a = b then lexLt as bs else decide (a.toNat < b.toNat)

/-- Python string `<=` as a Bool. -/
def strLeB (a b : String) : Bool := lexLt a.data b.data || a == b

/-- Python `sorted` on a string list (ascending by code points; stable, but
the inputs here are duplicate-free so any correct sort agrees). -/
def sortStrings (l : List String) : List String :=
  l.insertionSort (fun a b => strLeB a b = true)

/-- Python `sorted(set(...))`. -/
def sortedSet (l : List String) : List String := sortStrings l.dedup

/-- `' '.join(s.lower().split())` word splitting: runs of Python whitespace
separate words, ends are ignored. -/
def pyWordsAux : List Char → List Char → List (List Char)
  | [], acc => if acc.isEmpty then [] else [acc.reverse]
  | c :: rest, acc =>
    if isPySpace c then
      (if acc.isEmpty then pyWordsAux rest [] else acc.reverse :: pyWordsAux rest [])
    else pyWordsAux rest (c :: acc)

/-- Line 781: `' '.join(entry['round'].lower().split())`. -/
def collapseWs (s : String) : String :=
  ⟨List.intercalate [' '] (pyWordsAux (pyLowerL s.data) [])⟩

/-- Python substring containment `needle in hay`. -/
def listHasSub (hay needle : List Char) : Bool :=
  (List.range (hay.length + 1)).any fun i => decide ((hay.drop i).take needle.length = needle)

/-- Line 731: `'all rounds' in round_name.lower()`. -/
def isAllRoundsReq (round_name : String) : Bool :=
  listHasSub (pyLowerL round_name.data) "all rounds".data

/-- Digit test for `int()` parsing (ASCII digits; Python also accepts other
Unicode digits, which never arise here). -/
def isDig (c : Char) : Bool := decide (48 ≤ c.toNat ∧ c.toNat ≤ 57)

/-- Digit run with single underscores allowed between digits, as accepted by
Python `int()`. -/
def pyDigitsAux : List Char → ℕ → Option ℕ
  | [], acc => some acc
  | '_' :: c :: rest, acc =>
    if isDig c then pyDigitsAux rest (acc * 10 + (c.toNat - 48)) else none
  | ['_'], _ => none
  | c :: rest, acc =>
    if isDig c then pyDigitsAux rest (acc * 10 + (c.toNat - 48)) else none

/-- Unsigned part of `int()` parsing. -/
def pyParseNat : List Char → Option ℕ
  | [] => none
  | c :: rest => if isDig c then pyDigitsAux rest (c.toNat - 48) else none

/-- Python `int(s)` for a string argument (line 671); `none` models the
`ValueError` branch returning the invalid-rank response. -/
def pyParseInt (s : String) : Option Int :=
  match stripEnds s.data with
  | [] => none
  | c :: rest =>
    if c = '+' then (pyParseNat rest).map Int.ofNat
    else if c = '-' then (pyParseNat rest).map (fun n => -(n : Int))
    else (pyParseNat (c :: rest)).map Int.ofNat

/-! ### difflib model

`difflib.get_close_matches(word, keys, n=1, cutoff=0.6)` accepts a candidate
iff `ratio >= cutoff` (the two quick ratios are upper bounds of `ratio`), and
returns the largest accepted `(score, candidate)` pair under tuple order.
`ratio = 2*M/T` where `T` is the total length and `M` the total size of the
Ratcliff/Obershelp matching blocks of `SequenceMatcher(None, candidate,
word)` (no junk: the strings here are far below the autojunk threshold). -/

/-- A common block of length `k` at positions `i`, `j` inside the windows
`[alo, ahi)`, `[blo, bhi)`. -/
def sliceEq (a b : List Char) (i j k : ℕ) : Bool :=
  decide ((a.drop i).take k = (b.drop j).take k)

/-- Does a common block of length `k` exist inside the windows? -/
def hasBlock (a b : List Char) (alo ahi blo bhi k : ℕ) : Bool :=
  (List.range (ahi + 1)).any fun i =>
    (List.range (bhi + 1)).any fun j =>
      decide (alo ≤ i) && decide (blo ≤ j) && decide (i + k ≤ ahi) &&
        decide (j + k ≤ bhi) && sliceEq a b i j k

/-- Length of the longest common block inside the windows. -/
def lcsLen (a b : List Char) (alo ahi blo bhi : ℕ) : ℕ :=
  ((List.range (min (ahi - alo) (bhi - blo) + 1)).reverse.find? fun k =>
    hasBlock a b alo ahi blo bhi k).getD 0

/-- `find_longest_match`: the longest common block, position ties resolved to
the least `(i, j)` in lexicographic order (the block found first by the
CPython scan). -/
def firstBlock (a b : List Char) (alo ahi blo bhi : ℕ) : ℕ × ℕ × ℕ :=
  let k := lcsLen a b alo ahi blo bhi
  let ij := (List.range (ahi + 1)).findSome? fun i =>
    (List.range (bhi + 1)).findSome? fun j =>
      if alo ≤ i ∧ blo ≤ j ∧ i + k ≤ ahi ∧ j + k ≤ bhi ∧ sliceEq a b i j k then
        some (i, j) else none
  match ij with
  | some (i, j) => (i, j, k)
  | none => (alo, blo, 0)

/-- Total size of the matching blocks (`get_matching_blocks` recursion on the
two windows around the longest match). The fuel argument only bounds the
recursion depth; `a.length + b.length + 1` is always sufficient because each
level strictly shrinks the combined window. -/
def matchTotal : ℕ → List Char → List Char → ℕ → ℕ → ℕ → ℕ → ℕ
  | 0, _, _, _, _, _, _ => 0
  | fuel + 1, a, b, alo, ahi, blo, bhi =>
    match firstBlock a b alo ahi blo bhi with
    | (i, j, k) =>
      if k = 0 then 0
      else matchTotal fuel a b alo i blo j + k + matchTotal fuel a b (i + k) ahi (j + k) bhi

/-- `M` for the full strings. -/
def matchM (a b : List Char) : ℕ :=
  matchTotal (a.length + b.length + 1) a b 0 a.length 0 b.length

/-- `ratio >= 0.6` as the exact comparison `2M/T ≥ 3/5` (with `ratio = 1.0`
when `T = 0`, as in `difflib._calculate_ratio`). -/
def simOK (M T : ℕ) : Bool := T = 0 || decide (3 * T ≤ 10 * M)

/-- Strict comparison of two ratios `2*M1/T1 > 2*M2/T2` (a zero-length total
only occurs for two empty strings, where the ratio is defined as 1). -/
def simGt (M1 T1 M2 T2 : ℕ) : Bool :=
  let n1 := if T1 = 0 then 1 else 2 * M1
  let d1 := if T1 = 0 then 1 else T1
  let n2 := if T2 = 0 then 1 else 2 * M2
  let d2 := if T2 = 0 then 1 else T2
  decide (n2 * d1 < n1 * d2)

/-- Equality of two ratios. -/
def simEq (M1 T1 M2 T2 : ℕ) : Bool :=
  let n1 := if T1 = 0 then 1 else 2 * M1
  let d1 := if T1 = 0 then 1 else T1
  let n2 := if T2 = 0 then 1 else 2 * M2
  let d2 := if T2 = 0 then 1 else T2
  decide (n1 * d2 = n2 * d1)

/-- `difflib.get_close_matches(w, keys, n=1, cutoff=0.6)`, first element:
the accepted candidate with the largest `(score, candidate)` tuple (score
ties are broken towards the lexicographically larger string, as by
`heapq.nlargest` on `(score, x)` tuples). -/
def bmStep (w : List Char) (best : Option (String × ℕ × ℕ)) (x : String) :
    Option (String × ℕ × ℕ) :=
  let M := matchM x.data w
  let T := x.data.length + w.length
  if simOK M T then
    match best with
    | none => some (x, M, T)
    | some (bx, bM, bT) =>
      if simGt M T bM bT || (simEq M T bM bT && lexLt bx.data x.data) then
        some (x, M, T)
      else some (bx, bM, bT)
  else best

/-- `difflib.get_close_matches(w, keys, n=1, cutoff=0.6)`, first element:
the accepted candidate with the largest `(score, candidate)` tuple (score
ties are broken towards the lexicographically larger string, as by
`heapq.nlargest` on `(score, x)` tuples). -/
def bestMatch (w : String) (keys : List String) : Option String :=
  (keys.foldl (bmStep w.data) none).map (·.1)

/-! ### IEEE-754 binary64 model for the rank window -/

/-- Binary length of a natural number, by fuelled halving (the fuel `200`
covers every number below `2 ^ 200`, far beyond anything arising here). -/
def bitLenAux : ℕ → ℕ → ℕ
  | 0, _ => 0
  | fuel + 1, n => if n = 0 then 0 else 1 + bitLenAux fuel (n / 2)

/-- Binary length: `2 ^ (bitLen n - 1) ≤ n < 2 ^ bitLen n` for `n > 0`. -/
def bitLen (n : ℕ) : ℕ := bitLenAux 200 n

/-- Round a positive dyadic rational `num / 2 ^ sc` to 53 significant bits,
round-to-nearest, ties to even (the exponent range of binary64 is never
approached by the values arising here). -/
def roundBin64 (num sc : ℕ) : ℕ × ℕ :=
  if num < 2 ^ 53 then (num, sc)
  else
    let b := bitLen num - 1
    let s := b - 52
    let q := num / 2 ^ s
    let r := num % 2 ^ s
    let q2 := if 2 ^ (s - 1) < r ∨ (r = 2 ^ (s - 1) ∧ q % 2 = 1) then q + 1 else q
    if s ≤ sc then (q2, sc - s) else (q2 * 2 ^ (s - sc), 0)

/-- Correctly rounded product of two nonnegative binary64 values given as
dyadic rationals. -/
def fMul (a b : ℕ × ℕ) : ℕ × ℕ := roundBin64 (a.1 * b.1) (a.2 + b.2)

/-- The binary64 value of the literal `0.15` is `5404319552844595 / 2 ^ 55`
(the nearest double to `3 / 20`). -/
def c015 : ℕ × ℕ := (5404319552844595, 55)

/-- `1 - 0.15` computed in binary64 (correctly rounded exact difference). -/
def fOneMinus : ℕ × ℕ := roundBin64 (2 ^ 55 - c015.1) 55

/-- `1 + 0.15` computed in binary64 (correctly rounded exact sum). -/
def fOnePlus : ℕ × ℕ := roundBin64 (2 ^ 55 + c015.1) 55

/-- Python `int()` truncation of a nonnegative dyadic value. -/
def pyIntTrunc (d : ℕ × ℕ) : ℕ := d.1 / 2 ^ d.2

/-- Lines 743-745: `rank_margin = 0.15 if include_nearby else 0;
min_rank = int(rank * (1 - rank_margin)); max_rank = int(rank * (1 + rank_margin))`.
Without the nearby flag the margin is the integer `0` and both bounds are
exactly `rank`; with it, the products are binary64 computations on the
(exactly converted) rank, truncated towards zero. -/
def rankWindow (includeNearby : Bool) (rank : Int) : Int × Int :=
  if includeNearby then
    let n := rank.natAbs
    let rf := roundBin64 n 0
    let mn : Int := (pyIntTrunc (fMul rf fOneMinus) : ℕ)
    let mx : Int := (pyIntTrunc (fMul rf fOnePlus) : ℕ)
    if 0 ≤ rank then (mn, mx) else (-mn, -mx)
  else (rank, rank)

/-! ### Data model -/

/-- One catalog record (an element of `cutoff_data`): the fields of an entry
of the master JSON that the `predict` route reads. -/
structure Entry where
  year : String
  round : String
  institute : String
  institute_code : String
  course : String
  category : String
  cutoff_rank : Int
deriving DecidableEq

/-- The parsed request body after the missing-field validation of lines
643-661: `rank`, `category`, `round_name` are present and non-null;
`course`, `institute` default to `''` and `include_nearby` to `False`. -/
structure Request where
  rank : String
  category : String
  course : String
  round_name : String
  include_nearby : Bool
  institute : String
deriving DecidableEq

/-- One enriched result object (lines 808-819).  `rank_diff` is the exact
value of `((cutoff_rank - rank) / rank) * 100` as an unreduced fraction
`((cutoff_rank - rank) * 100, rank)`. -/
structure MatchedCollege where
  institute : String
  institute_code : String
  cutoff_rank : Int
  course : String
  course_code : String
  category : String
  round : String
  year : String
  likely : Bool
  rank_diff : Int × Int
deriving DecidableEq

/-- The possible responses of the `predict` route (after JSON parsing and the
required-field check).  Payloads carry the data serialized in the
corresponding `jsonify` call. -/
inductive PredictResult where
  /-- Line 672-677: `ValueError` from `int(rank)`, HTTP 400. -/
  | invalidRank : PredictResult
  /-- Line 710: category resolution failed, with the raw input and the sorted
  normalized suggestions, HTTP 400. -/
  | unknownCategory : String → List String → PredictResult
  /-- Line 718: course resolution failed, HTTP 400. -/
  | unknownCourse : String → List String → PredictResult
  /-- Line 724: spaceless `round_name` with an empty catalog, HTTP 400. -/
  | noYearData : PredictResult
  /-- Line 737: round resolution failed, HTTP 400. -/
  | unknownRound : String → List String → PredictResult
  /-- Lines 761-771: empty pre-filter; payload `(year, category, course,
  round, available years, categories, courses, rounds)`, HTTP 404. -/
  | noCollegesError : String → String → String → String → List String →
      List String → List String → List String → PredictResult
  /-- Lines 825-842: empty match list; payload `(year, round, is_all_rounds,
  category, course, institute, rank_range, available years, categories,
  rounds)`, HTTP 200. -/
  | noCollegesMessage : String → String → Bool → String → String → String →
      String → List String → List String → List String → PredictResult
  /-- Line 847: the sorted list of matching colleges, HTTP 200. -/
  | success : List MatchedCollege → PredictResult
deriving DecidableEq

/-- The static `COURSE_FULL_NAMES` table (lines 174-306). -/
def courseFullNames : List (String × String) := [
  ("AD", "Artificial Intelligence And Data Science"),
  ("AE", "Aeronautical Engineering"),
  ("AI", "Artificial Intelligence and Machine Learning"),
  ("AM", "B TECH IN COMP SCI & ENGG (AI & ML)"),
  ("AR", "Architecture"),
  ("AT", "Automotive Engineering"),
  ("AU", "Automobile Engineering"),
  ("BA", "B.Tech(Agri.Engg)"),
  ("BB", "B TECH IN ELECTRONICS & COMMUNICATION ENGINEERING"),
  ("BC", "BTech Computer Technology"),
  ("BD", "Computer Science Engineering-Big Data"),
  ("BE", "Bio-Electronics Engineering"),
  ("BF", "B TECH (HONS) COMP SCI AND ENGG(DATA SCIENCE)"),
  ("BG", "B TECH IN ARTIFICIAL INTELLI AND DATA SCIENCE"),
  ("BH", "B TECH IN ARTIFICIAL INTELLIGENCE AND ML"),
  ("BI", "Information Technology and Engineering"),
  ("BJ", "B TECH IN ELECTRICAL & ELECTRONICS ENGINEERING"),
  ("BK", "B TECH IN ENERGY ENGINEERING"),
  ("BL", "B TECH IN AERO SPACE ENGINEERING"),
  ("BM", "Bio Medical Engineering"),
  ("BN", "B TECH IN COMPUTER SCIENCE AND TECH(BIG DATA)"),
  ("BO", "B TECH IN BIO-TECHNOLOGY"),
  ("BP", "B TECH IN CIVIL ENGINEERING"),
  ("BQ", "B TECH IN COMPUTER SCIENCE AND TECHNOLOGY"),
  ("BR", "BioMedical and Robotic Engineering"),
  ("BS", "Bachelor of Science (Honours)"),
  ("BT", "Bio Technology"),
  ("BU", "B TECH IN COMPUTER SCIENCE AND INFO TECH"),
  ("BV", "B TECH IN COMPUTER ENGINEERING"),
  ("BW", "B TECH IN COMPUTER SCIENCE AND ENGINEERING"),
  ("BX", "B TECH IN COMP SCIENCE AND ENGG(CYBER SECURITY)"),
  ("BY", "B TECH IN COMP SCIENCE AND TECHNOLOGY(DEV OPS)"),
  ("BZ", "B TECH IN COMPUTER SCIENCE AND ENGG(DATA SCIENCE)"),
  ("CA", "Computer Science Engineering-AI, Machine Learning"),
  ("CB", "Computer Science and Business Systems"),
  ("CC", "Computer and Communication Engineering"),
  ("CD", "Computer Science and Design"),
  ("CE", "Civil Engineering"),
  ("CF", "B TECH IN COMPUTER SCIENCE AND ENGINEERING"),
  ("CG", "Computer Science and Technology"),
  ("CH", "Chemical Engineering"),
  ("CI", "Computer Science and Information Technology"),
  ("CK", "Civil Engineering (Kannada Medium)"),
  ("CL", "B TECH IN ELECTRONICS & COMPUTER ENGINEERING"),
  ("CM", "ELECTRONICS ENGINEERING(VLSI DESIGN & TECH)"),
  ("CN", "B TECH IN COMP SCI AND ENGG(IOT AND BLOCK CHAIN)"),
  ("CO", "Computer Engineering"),
  ("CP", "Civil Engineering and Planning"),
  ("CQ", "B TECH IN COMPUTER SCIENCE AND ENGINEERING(IOT)"),
  ("CR", "Ceramics and Cement Technology"),
  ("CS", "Computers Science And Engineering"),
  ("CT", "Construction Technology and Management"),
  ("CU", "B TECH IN INFORMATION SCIENCE ENGINEERING"),
  ("CV", "Civil Environmental Engineering"),
  ("CW", "B TECH IN INFORMATION TECHNOLOGY"),
  ("CX", "B TECH IN INFORMATION SCIENCE & TECHNOLOGY"),
  ("CY", "Computer Science Engineering-Cyber Security"),
  ("CZ", "B TECH IN COMPUTER SCIENCE AND ENGG(BLOCK CHAIN)"),
  ("DA", "B TECH IN MATHAMATICS AND COMPUTING"),
  ("DB", "B TECH IN MECHANICAL ENGINEERING"),
  ("DC", "Data Sciences"),
  ("DD", "B TECH IN MECHATRONICS ENGINEERING"),
  ("DE", "B TECH IN PETROLEUM ENGINEERING"),
  ("DF", "B TECH IN ROBOTICS AND AUTOMATION"),
  ("DG", "DESIGN"),
  ("DH", "B Tech in ROBOTICS AND ARTIFICIAL INTELLIGENCE"),
  ("DI", "B TECH IN ROBOTIC ENGINEERING"),
  ("DJ", "B TECH IN ROBOTICS"),
  ("DK", "B TECH IN COMPUTER SCIENCE AND SYSTEM ENGG"),
  ("DL", "B TECH IN COMPUTER SCIENCE"),
  ("DM", "COMPUTER SCIENCE ENGINEERING (NETWORKS)"),
  ("DN", "B Tech in VLSI"),
  ("DS", "Computer Science Engineering-Data Sciences"),
  ("EA", "Agriculture Engineering"),
  ("EB", "ELECTRONICS AND COMMUNICATION (ADV COMM TECH)"),
  ("EC", "Electronics and Communication Engineering"),
  ("EE", "Electrical And Electronics Engineering"),
  ("EG", "Energy Engineering"),
  ("EI", "Electronics and Instrumentation Engineering"),
  ("EL", "Electronics and Instrumentation Tech."),
  ("EN", "Environmental Engineering"),
  ("EP", "BTech Technology and Entrepreneurship"),
  ("ER", "Electrical and Computer Engineering"),
  ("ES", "Electronics and Computer Engineering"),
  ("ET", "Electronics and Telecommunication Engineering"),
  ("EV", "Electronics Engineering(VLSI Design Technology)"),
  ("IB", "Computer Science Engg-IoT including Block Chain"),
  ("IC", "CS-Internet of things, Cyber Security(Block Chain)"),
  ("IE", "Information Science and Engineering"),
  ("IG", "Information Technology"),
  ("II", "Elec. and Communication- Industrial Integrated"),
  ("IM", "Industrial Engineering and Management"),
  ("IO", "Computer Science Engineering-Internet of Things"),
  ("IP", "Industrial and Production Engineering"),
  ("IS", "Information Science and Technology"),
  ("IT", "Instrumentation Technology"),
  ("IY", "CS - Information Technology-Cyber Security"),
  ("LA", "B Plan"),
  ("LC", "Computer Science Engineering-Block Chain"),
  ("MC", "Mathematics and Computing"),
  ("MD", "Medical Electronics"),
  ("ME", "Mechanical Engineering"),
  ("MK", "Mechanical Engineering (Kannada Medium)"),
  ("MM", "Mechanical and Smart Manufacturing"),
  ("MR", "Marine Engineering"),
  ("MS", "Manufacturing Science and Engineering"),
  ("MT", "Mechatronics"),
  ("NT", "Nano Technology"),
  ("OP", "Computer Science Engineering-Dev Ops"),
  ("OT", "Industrial IOT"),
  ("PE", "Petrochem Engineering"),
  ("PL", "Petroleum Engineering"),
  ("PM", "Precision Manufacturing"),
  ("PT", "Polymer Science and Technology"),
  ("RA", "Robotics and Automation"),
  ("RB", "Robotics"),
  ("RI", "Robotics and Artificial Intelligence"),
  ("RM", "Computer Science - Robotic Engineering-AI and ML"),
  ("RO", "Automation and Robotics Engineering"),
  ("SA", "Smart Agritech"),
  ("SE", "Aero Space Engineering"),
  ("SS", "Computer Science and System Engineering"),
  ("ST", "Silk Technology"),
  ("TC", "Telecommunication Engineering"),
  ("TE", "Tool Engineering"),
  ("TI", "Industrial IoT"),
  ("TX", "Textile Technology"),
  ("UP", "Planning"),
  ("UR", "Planning"),
  ("ZC", "COMPUTER SCIENCE"),
  ("mn", "Mining Engineering")]

/-- `COURSE_FULL_NAMES.get(code, code)` (line 806). -/
def fullCourseName (c : String) : String :=
  (((courseFullNames.find? (fun p => p.1 == c)).map (·.2))).getD c

/-! ### Query resolution (lines 694-740) -/

/-- The normalization map of a field: `{norm(v): v for v in sorted(set(...))}`
as an insertion-ordered association list; a later pair shadows an earlier one
with the same key, as in a dict comprehension. -/
def normPairs (vals : List String) : List (String × String) :=
  vals.map (fun v => (pyNorm v, v))

/-- The normalization map for one entry field over the whole catalog
(lines 700-702). -/
def normMapOf (catalog : List Entry) (f : Entry → String) : List (String × String) :=
  normPairs (sortedSet (catalog.map f))

/-- `dict.get`: the value of the last pair with the given key. -/
def dictGet (m : List (String × String)) (k : String) : Option String :=
  ((m.reverse.find? (fun p => p.1 == k))).map (·.2)

/-- `list(dict.keys())`: keys in first-insertion order, deduplicated. -/
def dictKeys (m : List (String × String)) : List String :=
  (m.map (·.1)).dedup

/-- Python `x or y` for an optional string `x` (`None` and `''` are falsy). -/
def pyOr (a b : Option String) : Option String :=
  match a with
  | some s => if s = "" then b else some s
  | none => b

/-- The resolution pattern used for category (705-710), course (713-718) and
round (732-737): normalized exact lookup, else `best_match`; a falsy result
is a failure; a truthy result is mapped once more through the dict with
itself as the default. -/
def resolveField (m : List (String × String)) (input : String) : Option String :=
  match pyOr (dictGet m (pyNorm input)) (bestMatch (pyNorm input) (dictKeys m)) with
  | none => none
  | some c => if c = "" then none else some ((dictGet m c).getD c)

/-- `round_name.split(' ', 1)`: the part before the first space and the rest. -/
def splitFirstSpace (s : String) : String × String :=
  (⟨s.data.takeWhile (fun c => !(c == ' '))⟩,
   ⟨(s.data.dropWhile (fun c => !(c == ' '))).drop 1⟩)

/-- Lines 722-730: derive `(year, round text)` from `round_name`; a spaceless
`round_name` uses the latest catalog year (`none` models the no-year-data
response of line 724 for an empty catalog). -/
def yearSpecOf (catalog : List Entry) (round_name : String) : Option (String × String) :=
  if round_name.data.any (fun c => c == ' ') then some (splitFirstSpace round_name)
  else
    match (sortedSet (catalog.map (·.year))).getLast? with
    | none => none
    | some y => some (y, round_name)

/-! ### Filter pipeline (lines 742-845) -/

/-- The institute key `f"{entry['institute_code']}_{entry['institute']}"`. -/
def instKey (e : Entry) : String := e.institute_code ++ "_" ++ e.institute

/-- The pre-filter predicate of lines 748-760: an entry survives iff none of
the `continue` conditions fires. -/
def passPre (year category course institute : String) (allRounds : Bool)
    (inorm : String) (e : Entry) : Bool :=
  (e.year == year) && (e.category == category) &&
  (course == "" || e.course == course) &&
  (institute == "" || instKey e == institute) &&
  (allRounds || pyNorm e.round == inorm)

/-- Lines 748-760: `filtered_data`. -/
def preFilter (catalog : List Entry) (year category course institute : String)
    (allRounds : Bool) (inorm : String) : List Entry :=
  catalog.filter (passPre year category course institute allRounds inorm)

/-- The dedup key of line 796: underscore-joined string of six fields. -/
def comboKey (e : Entry) : String :=
  e.institute_code ++ "_" ++ e.course ++ "_" ++ e.category ++ "_" ++
    toString e.cutoff_rank ++ "_" ++ e.year ++ "_" ++ e.round

/-- The same six fields read back from an enriched result. -/
def comboKeyM (m : MatchedCollege) : String :=
  m.institute_code ++ "_" ++ m.course_code ++ "_" ++ m.category ++ "_" ++
    toString m.cutoff_rank ++ "_" ++ m.year ++ "_" ++ m.round

/-- Lines 808-819: the enriched result object for one entry. -/
def enrich (rank : Int) (e : Entry) : MatchedCollege :=
  { institute := e.institute
    institute_code := e.institute_code
    cutoff_rank := e.cutoff_rank
    course := fullCourseName e.course
    course_code := e.course
    category := e.category
    round := e.round
    year := e.year
    likely := decide (rank ≤ e.cutoff_rank)
    rank_diff := ((e.cutoff_rank - rank) * 100, rank) }

/-- The matching loop of lines 777-823 over `filtered_data`, carrying the
`seen_combinations` set.  The `rank = 0` test models the only exception the
per-record handler (821-823) can catch for well-typed data: the
`ZeroDivisionError` of line 803, raised after the key was added to the seen
set and before the record is appended. -/
def mainLoop (rank : Int) (allRounds : Bool) (inorm : String) (nearby : Bool)
    (minR maxR : Int) : List Entry → List String → List MatchedCollege
  | [], _ => []
  | e :: rest, seen =>
    if ¬allRounds ∧ collapseWs e.round ≠ inorm then
      mainLoop rank allRounds inorm nearby minR maxR rest seen
    else if nearby ∧ ¬(minR ≤ e.cutoff_rank ∧ e.cutoff_rank ≤ maxR + 75000) then
      mainLoop rank allRounds inorm nearby minR maxR rest seen
    else if ¬nearby ∧ e.cutoff_rank < rank - 1000 then
      mainLoop rank allRounds inorm nearby minR maxR rest seen
    else if comboKey e ∈ seen then
      mainLoop rank allRounds inorm nearby minR maxR rest seen
    else if rank = 0 then
      mainLoop rank allRounds inorm nearby minR maxR rest (comboKey e :: seen)
    else
      enrich rank e :: mainLoop rank allRounds inorm nearby minR maxR rest (comboKey e :: seen)

/-- First component of the sort key `(not x['likely'], x['cutoff_rank'])` of
line 845, with `False < True` read as `0 < 1`. -/
def mcKeyFst (m : MatchedCollege) : ℕ := if m.likely then 0 else 1

/-- The sort order of line 845: ascending lexicographic on
`(not likely, cutoff_rank)`. -/
def mcLe (a b : MatchedCollege) : Prop :=
  mcKeyFst a < mcKeyFst b ∨ (mcKeyFst a = mcKeyFst b ∧ a.cutoff_rank ≤ b.cutoff_rank)

instance : DecidableRel mcLe := fun a b =>
  inferInstanceAs (Decidable (_ ∨ _ ∧ _))

/-- `matching_colleges.sort(key=...)`: Python list sort is a stable ascending
sort by the key; insertion sort with a total `≤` produces the same list. -/
def pySort (l : List MatchedCollege) : List MatchedCollege := l.insertionSort mcLe

/-- Lines 742-847: the tail of the route after all resolutions succeeded. -/
def predictTail (catalog : List Entry) (req : Request) (rank : Int)
    (category course year spec roundMatch : String) : PredictResult :=
  let allRounds := isAllRoundsReq req.round_name
  let inorm := pyNorm spec
  let w := rankWindow req.include_nearby rank
  let filtered := preFilter catalog year category course req.institute allRounds inorm
  if filtered.isEmpty then
    .noCollegesError year category course roundMatch
      (sortedSet (catalog.map (·.year))) (sortedSet (catalog.map (·.category)))
      (sortedSet (catalog.map (·.course))) (sortedSet (catalog.map (·.round)))
  else
    let matching := mainLoop rank allRounds inorm req.include_nearby w.1 w.2 filtered []
    if matching.isEmpty then
      .noCollegesMessage year roundMatch allRounds category course req.institute
        (toString w.1 ++ " to " ++
          toString (if req.include_nearby then w.2 + 75000 else rank - 1000))
        (sortedSet (catalog.map (·.year))) (sortedSet (catalog.map (·.category)))
        (sortedSet (catalog.map (·.round)))
    else .success (pySort matching)

/-- The `predict` route (lines 623-850) from the point where the JSON body
has been parsed and `rank`, `category`, `round_name` are present. -/
def predict (catalog : List Entry) (req : Request) : PredictResult :=
  match pyParseInt req.rank with
  | none => .invalidRank
  | some rank =>
    match resolveField (normMapOf catalog (·.category)) req.category with
    | none => .unknownCategory req.category
        (sortStrings (dictKeys (normMapOf catalog (·.category))))
    | some category =>
      match resolveField (normMapOf catalog (·.course)) req.course with
      | none => .unknownCourse req.course
          (sortStrings (dictKeys (normMapOf catalog (·.course))))
      | some course =>
        match yearSpecOf catalog req.round_name with
        | none => .noYearData
        | some (year, spec) =>
          match resolveField (normMapOf catalog (·.round)) spec with
          | none => .unknownRound spec
              (sortStrings (dictKeys (normMapOf catalog (·.round))))
          | some roundMatch =>
            predictTail catalog req rank category course year spec roundMatch

/-! ### Derived definitions and concrete claim data -/

/-- The conditions of the `continue` guards of lines 780-793: an entry of
`filtered_data` reaches the dedup step iff all of them hold. -/
def passLoop (rank : Int) (allRounds : Bool) (inorm : String) (nearby : Bool)
    (minR maxR : Int) (e : Entry) : Prop :=
  (¬allRounds → collapseWs e.round = inorm) ∧
  (nearby = true → minR ≤ e.cutoff_rank ∧ e.cutoff_rank ≤ maxR + 75000) ∧
  (nearby = false → ¬(e.cutoff_rank < rank - 1000))

instance : IsTotal MatchedCollege mcLe := by
  constructor
  intro a b
  unfold mcLe
  rcases Nat.lt_trichotomy (mcKeyFst a) (mcKeyFst b) with h | h | h
  · exact Or.inl (Or.inl h)
  · rcases Int.le_total a.cutoff_rank b.cutoff_rank with hle | hle
    · exact Or.inl (Or.inr ⟨h, hle⟩)
    · exact Or.inr (Or.inr ⟨h.symm, hle⟩)
  · exact Or.inr (Or.inl h)

instance : IsTrans MatchedCollege mcLe := by
  constructor
  intro a b c hab hbc
  unfold mcLe at *
  rcases hab with hab | ⟨hab1, hab2⟩ <;> rcases hbc with hbc | ⟨hbc1, hbc2⟩
  · exact Or.inl (hab.trans hbc)
  · exact Or.inl (by omega)
  · exact Or.inl (by omega)
  · exact Or.inr ⟨hab1.trans hbc1, hab2.trans hbc2⟩

/-- The sort key of line 845 as a pair. -/
def mcKey (m : MatchedCollege) : ℕ × Int := (mcKeyFst m, m.cutoff_rank)

/-- The catalog and request of the C5 witness: a single-word round label so
that both round filters agree. -/
def c5Catalog : List Entry :=
  [⟨"2024", "R1", "Inst E", "E001", "CS", "GM", 5000⟩]

def c5Req : Request := ⟨"5000", "gm", "cs", "2024 R1", false, ""⟩

def c5Result : MatchedCollege :=
  ⟨"Inst E", "E001", 5000, "Computers Science And Engineering", "CS", "GM",
    "R1", "2024", true, (0, 5000)⟩

def c6Catalog : List Entry :=
  [⟨"2024", "R1", "Inst E", "E001", "CS", "GM", 5000⟩]

def c6Req : Request := ⟨"5000", "gm", "cs", "2024 R1", true, ""⟩

def c6Result : MatchedCollege :=
  ⟨"Inst E", "E001", 5000, "Computers Science And Engineering", "CS", "GM",
    "R1", "2024", true, (0, 5000)⟩

def c8Catalog : List Entry :=
  [⟨"2024", "R1", "Inst B", "B1", "CS", "GM", 4500⟩,
   ⟨"2024", "R1", "Inst A", "A1", "CS", "GM", 4000⟩]

def c8Req : Request := ⟨"5000", "gm", "cs", "2024 R1", false, ""⟩

def c8Res : List MatchedCollege :=
  [⟨"Inst A", "A1", 4000, "Computers Science And Engineering", "CS", "GM",
     "R1", "2024", false, ((4000 - 5000) * 100, 5000)⟩,
   ⟨"Inst B", "B1", 4500, "Computers Science And Engineering", "CS", "GM",
     "R1", "2024", false, ((4500 - 5000) * 100, 5000)⟩]

/-- C1 counterexample data: the record's normalized round (`rounda`) equals
the normalization of the round the resolver returns (`Round A`), the
all-rounds flag is off and the rank rule holds, so under the claim the
record passes the filter and the query succeeds with this record; the code
instead drops it at the second round filter of line 781 (collapsed form
`round a` differs from the space-free `rounda`) and returns the no-colleges
message. -/
def c1Catalog : List Entry :=
  [⟨"2024", "Round A", "Inst X", "X01", "CS", "GM", 4000⟩]

def c1Req : Request := ⟨"4000", "gm", "cs", "2024 rounda", false, ""⟩

def c1WCatalog : List Entry :=
  [⟨"2024", "R7", "Inst W", "W01", "CS", "GM", 6000⟩]

def c1WReq : Request := ⟨"6000", "gm", "cs", "2024 r7", false, ""⟩

def c1WResult : MatchedCollege :=
  ⟨"Inst W", "W01", 6000, "Computers Science And Engineering", "CS", "GM",
    "R7", "2024", true, (0, 6000)⟩

/-- The composite dedup tuple of a result record. -/
def mcTuple (m : MatchedCollege) : String × String × String × Int × String × String :=
  (m.institute_code, m.course_code, m.category, m.cutoff_rank, m.year, m.round)

/-- C4 counterexample: `round_name` contains "all rounds", yet the round
text is still pushed through the fuzzy resolver, which finds no catalog
round similar enough to `allrounds` (the only round is `Mock Round` with
similarity 10/18 < 0.6) and the request fails with the unknown-round
response — contradicting the claim that no UnknownRound failure can be
raised when the all-rounds flag is set. -/
def c4Catalog : List Entry :=
  [⟨"2024", "Mock Round", "Inst M", "M01", "CS", "GM", 5000⟩]

def c4Req : Request := ⟨"5000", "gm", "cs", "2024 all rounds", false, ""⟩

def c4WCatalog : List Entry :=
  [⟨"1999", "All Rounds", "Inst Z", "Z1", "CS", "GM", 9999⟩,
   ⟨"2024", "R1", "Inst E", "E1", "CS", "GM", 4000⟩,
   ⟨"2024", "R2", "Inst E", "E1", "CS", "GM", 4500⟩]

def c4WReq : Request := ⟨"5000", "gm", "cs", "2024 all rounds", false, ""⟩

def c4WEntry : Entry := ⟨"2024", "R2", "Inst E", "E1", "CS", "GM", 4500⟩

def c4WRes : List MatchedCollege :=
  [⟨"Inst E", "E1", 4000, "Computers Science And Engineering", "CS", "GM",
     "R1", "2024", false, ((4000 - 5000) * 100, 5000)⟩,
   ⟨"Inst E", "E1", 4500, "Computers Science And Engineering", "CS", "GM",
     "R2", "2024", false, ((4500 - 5000) * 100, 5000)⟩]

/-- C7 counterexample: the catalog contains the record `c7B` twice (a
duplicate under the composite tuple), but its underscore-joined string key
collides with that of the earlier, different record `c7A`
(both join to `E_CS_GM_5_2024_R_CS_GM_9_2024_Z`), so no record with `c7B`'s
tuple is ever emitted — the first occurrence of the duplicated record does
NOT win.  The first catalog entry only provides an "all rounds" round label
so that round resolution succeeds. -/
def c7A : Entry := ⟨"2024", "R_CS_GM_9_2024_Z", "Inst A", "E", "CS", "GM", 5⟩

def c7B : Entry := ⟨"2024", "Z", "Inst B", "E_CS_GM_5_2024_R", "CS", "GM", 9⟩

def c7Catalog : List Entry :=
  [⟨"1999", "all rounds", "Inst Z", "Z1", "CS", "GM", 7⟩, c7A, c7B, c7B]

def c7Req : Request := ⟨"50", "gm", "cs", "2024 all rounds", false, ""⟩

def c7WCatalog : List Entry :=
  [⟨"2024", "R1", "Inst E", "E1", "CS", "GM", 4000⟩,
   ⟨"2024", "R1", "Inst E", "E1", "CS", "GM", 4000⟩,
   ⟨"2024", "R1", "Inst F", "F1", "CS", "GM", 4500⟩]

def c7WReq : Request := ⟨"5000", "gm", "cs", "2024 R1", false, ""⟩

def c7WRes : List MatchedCollege :=
  [⟨"Inst E", "E1", 4000, "Computers Science And Engineering", "CS", "GM",
     "R1", "2024", false, ((4000 - 5000) * 100, 5000)⟩,
   ⟨"Inst F", "F1", 4500, "Computers Science And Engineering", "CS", "GM",
     "R1", "2024", false, ((4500 - 5000) * 100, 5000)⟩]

def c10Catalog : List Entry :=
  [⟨"2024", "R1", "Inst E", "E001", "CS", "GM", 5000⟩]

/-- C10 counterexample: a query whose rank is the string "0" but whose
category does not resolve is answered with the unknown-category error, not
with the no-colleges-found message, refuting the claim for "every catalog
and every such query". -/
def c10Req : Request := ⟨"0", "qqqq", "cs", "2024 R1", false, ""⟩

def c10WReq : Request := ⟨"0", "gm", "cs", "2024 R1", false, ""⟩

/-- C2 (code bug): on the specification's own scenario — one catalog record
(year 2024, round "Round 1", institute E001, course CS, category GM, cutoff
5000) queried with rank 5000, category "gm", course "cs", round_name
"2024 round1", include_nearby false — the route returns the no-colleges
message instead of the single likely result, because the second round filter
(line 781) compares the space-collapsed round `round 1` with the space-free
normalized input `round1` and drops the record. -/
def c2Catalog : List Entry :=
  [⟨"2024", "Round 1", "Inst E", "E001", "CS", "GM", 5000⟩]

def c2Req : Request := ⟨"5000", "gm", "cs", "2024 round1", false, ""⟩

/-- C3 (code bug): an empty course string is forced through course
resolution (no emptiness guard before line 713), the resolver finds nothing
close to the empty string, and the route answers with the unknown-course
error — contradicting the specified "empty course means no course filter".
The dead guard `if course and ...` at line 754 shows the intended optional
semantics. -/
def c3Catalog : List Entry :=
  [⟨"2024", "Round 1", "Inst E", "E001", "CS", "GM", 5000⟩]

def c3Req : Request := ⟨"5000", "gm", "", "2024 round1", false, ""⟩

/-! ### Lemmas: the normalizer is idempotent -/

theorem asciiLower_idem (c : Char) : asciiLower (asciiLower c) = asciiLower c := by
  unfold asciiLower
  by_cases h : 65 ≤ c.toNat ∧ c.toNat ≤ 90
  · rw [if_pos h]
    rw [if_neg ?hh]
    case hh =>
      obtain ⟨h1, h2⟩ := h
      interval_cases hn : c.toNat <;> decide
  · rw [if_neg h, if_neg h]

theorem asciiLower_not_space (c : Char) (h : isPySpace c = false) :
    isPySpace (asciiLower c) = false := by
  unfold asciiLower
  by_cases hc : 65 ≤ c.toNat ∧ c.toNat ≤ 90
  · rw [if_pos hc]
    obtain ⟨h1, h2⟩ := hc
    interval_cases hn : c.toNat <;> decide
  · rw [if_neg hc]; exact h

theorem mem_ampToAnd {c : Char} {l : List Char} (h : c ∈ ampToAnd l) :
    c ∈ (['a', 'n', 'd'] : List Char) ∨ (c ∈ l ∧ c ≠ '&') := by
  unfold ampToAnd at h
  rw [List.mem_flatMap] at h
  obtain ⟨x, hx, hc⟩ := h
  by_cases hamp : x = '&'
  · rw [if_pos hamp] at hc
    exact Or.inl hc
  · rw [if_neg hamp] at hc
    simp only [List.mem_singleton] at hc
    subst hc
    exact Or.inr ⟨hx, hamp⟩

theorem mem_pyNormL {c : Char} {l : List Char} (h : c ∈ pyNormL l) :
    asciiLower c = c ∧ c ≠ ' ' ∧ c ≠ '&' := by
  unfold pyNormL at h
  rcases mem_ampToAnd h with hand | ⟨hmem, hamp⟩
  · fin_cases hand <;> exact ⟨by decide, by decide, by decide⟩
  · unfold dropSpaces at hmem
    rw [List.mem_filter] at hmem
    obtain ⟨hmem, hsp⟩ := hmem
    refine ⟨?_, ?_, hamp⟩
    · unfold pyLowerL at hmem
      rw [List.mem_map] at hmem
      obtain ⟨d, _, rfl⟩ := hmem
      exact asciiLower_idem d
    · simpa using hsp

theorem map_id_of_fix {l : List Char} (f : Char → Char) (h : ∀ c ∈ l, f c = c) :
    l.map f = l := by
  induction l with
  | nil => rfl
  | cons c t ih =>
    simp only [List.map_cons, h c (List.mem_cons_self c t)]
    rw [ih (fun d hd => h d (List.mem_cons_of_mem c hd))]

theorem ampToAnd_id {l : List Char} (h : ∀ c ∈ l, c ≠ '&') : ampToAnd l = l := by
  induction l with
  | nil => rfl
  | cons c t ih =>
    unfold ampToAnd
    rw [List.flatMap_cons]
    rw [if_neg (h c (List.mem_cons_self c t))]
    have hih := ih (fun d hd => h d (List.mem_cons_of_mem c hd))
    unfold ampToAnd at hih
    rw [hih]
    rfl

theorem take1_dropWhile (p : Char → Bool) (l : List Char) :
    ∀ c ∈ (l.dropWhile p).take 1, p c = false := by
  induction l with
  | nil => intro c hc; simp at hc
  | cons d t ih =>
    intro c hc
    by_cases hd : p d
    · rw [List.dropWhile_cons_of_pos hd] at hc
      exact ih c hc
    · rw [List.dropWhile_cons_of_neg hd] at hc
      simp only [List.take_succ_cons, List.take_zero, List.mem_singleton] at hc
      subst hc
      exact Bool.eq_false_iff.mpr hd

theorem dropWhile_eq_self_of_take1 (p : Char → Bool) (l : List Char)
    (h : ∀ c ∈ l.take 1, p c = false) : l.dropWhile p = l := by
  cases l with
  | nil => rfl
  | cons c t =>
    have hc : p c = false := h c (by simp)
    exact List.dropWhile_cons_of_neg (by simp [hc])

theorem head?_dropWhile (p : Char → Bool) (l : List Char) {c : Char}
    (h : (l.dropWhile p).head? = some c) : p c = false := by
  induction l with
  | nil => simp at h
  | cons d t ih =>
    by_cases hd : p d
    · rw [List.dropWhile_cons_of_pos hd] at h
      exact ih h
    · rw [List.dropWhile_cons_of_neg hd] at h
      simp only [List.head?_cons, Option.some.injEq] at h
      subst h
      exact Bool.eq_false_iff.mpr hd

theorem getLast?_dropWhile (p : Char → Bool) (l : List Char) :
    l.dropWhile p = [] ∨ (l.dropWhile p).getLast? = l.getLast? := by
  induction l with
  | nil => exact Or.inl rfl
  | cons d t ih =>
    by_cases hd : p d
    · rw [List.dropWhile_cons_of_pos hd]
      rcases ih with ht | ht
      · exact Or.inl ht
      · cases t with
        | nil => exact Or.inl (by simp)
        | cons u v =>
          right
          rw [ht, List.getLast?_cons_cons]
    · rw [List.dropWhile_cons_of_neg hd]
      exact Or.inr rfl

theorem dropWhile_eq_self_of_head? (p : Char → Bool) (l : List Char)
    (h : ∀ c, l.head? = some c → p c = false) : l.dropWhile p = l := by
  cases l with
  | nil => rfl
  | cons c t =>
    have hc : p c = false := h c rfl
    exact List.dropWhile_cons_of_neg (by simp [hc])

theorem ampToAnd_ne_nil {l : List Char} (h : l ≠ []) : ampToAnd l ≠ [] := by
  cases l with
  | nil => exact absurd rfl h
  | cons c t =>
    unfold ampToAnd
    rw [List.flatMap_cons]
    by_cases hc : c = '&'
    · rw [if_pos hc]; simp
    · rw [if_neg hc]; simp

theorem head?_ampToAnd {z : List Char} {c : Char} (h : (ampToAnd z).head? = some c) :
    c = 'a' ∨ z.head? = some c := by
  cases z with
  | nil => simp [ampToAnd] at h
  | cons d t =>
    unfold ampToAnd at h
    rw [List.flatMap_cons] at h
    by_cases hd : d = '&'
    · rw [if_pos hd] at h
      simp only [List.cons_append, List.head?_cons, Option.some.injEq] at h
      exact Or.inl h.symm
    · rw [if_neg hd] at h
      simp only [List.singleton_append, List.head?_cons, Option.some.injEq] at h
      exact Or.inr (by rw [List.head?_cons, h])

theorem getLast?_ampToAnd {z : List Char} {c : Char}
    (h : (ampToAnd z).getLast? = some c) : c = 'd' ∨ z.getLast? = some c := by
  induction z with
  | nil => simp [ampToAnd] at h
  | cons d t ih =>
    cases t with
    | nil =>
      unfold ampToAnd at h
      rw [List.flatMap_cons] at h
      by_cases hd : d = '&'
      · rw [if_pos hd] at h
        simp only [List.flatMap_nil, List.append_nil] at h
        left
        simpa using h.symm
      · rw [if_neg hd] at h
        simp only [List.flatMap_nil, List.append_nil] at h
        right
        simpa using h
    | cons u v =>
      unfold ampToAnd at h
      rw [List.flatMap_cons] at h
      have hne : ampToAnd (u :: v) ≠ [] := ampToAnd_ne_nil (by simp)
      unfold ampToAnd at hne
      rw [List.getLast?_append_of_ne_nil _ hne] at h
      rcases ih h with hc | hc
      · exact Or.inl hc
      · right
        rw [List.getLast?_cons_cons]
        exact hc

theorem head?_filter_kept (p : Char → Bool) {w : List Char} {c : Char}
    (h : w.head? = some c) (hp : p c = true) : (w.filter p).head? = some c := by
  cases w with
  | nil => simp at h
  | cons d t =>
    simp only [List.head?_cons, Option.some.injEq] at h
    subst h
    rw [List.filter_cons_of_pos hp]
    rfl

theorem head?_stripEnds {l : List Char} {c : Char}
    (h : (stripEnds l).head? = some c) : isPySpace c = false := by
  unfold stripEnds at h
  rw [List.head?_reverse] at h
  rcases getLast?_dropWhile isPySpace ((l.dropWhile isPySpace).reverse) with hv | hv
  · rw [hv] at h
    simp at h
  · rw [hv, List.getLast?_reverse] at h
    exact head?_dropWhile isPySpace l h

theorem getLast?_stripEnds {l : List Char} {c : Char}
    (h : (stripEnds l).getLast? = some c) : isPySpace c = false := by
  unfold stripEnds at h
  rw [List.getLast?_reverse] at h
  exact head?_dropWhile isPySpace _ h

theorem head?_pyNormL {l : List Char} {c : Char}
    (h : (pyNormL l).head? = some c) : isPySpace c = false := by
  unfold pyNormL at h
  rcases head?_ampToAnd h with rfl | hz
  · decide
  · unfold dropSpaces at hz
    have hw : ∃ d, (pyLowerL (stripEnds l)).head? = some d ∧ isPySpace d = false := by
      cases hcw : (pyLowerL (stripEnds l)).head? with
      | none =>
        rw [List.head?_eq_none_iff] at hcw
        rw [hcw] at hz
        simp at hz
      | some d =>
        refine ⟨d, rfl, ?_⟩
        unfold pyLowerL at hcw
        rw [List.head?_map] at hcw
        cases hct : (stripEnds l).head? with
        | none => rw [hct] at hcw; simp at hcw
        | some e =>
          rw [hct] at hcw
          simp at hcw
          subst hcw
          exact asciiLower_not_space e (head?_stripEnds hct)
    obtain ⟨d, hd, hdsp⟩ := hw
    have hdne : (d == ' ') = false := by
      simp only [beq_eq_false_iff_ne, ne_eq]
      intro hdeq
      subst hdeq
      exact absurd hdsp (by decide)
    have := head?_filter_kept (fun c => !(c == ' ')) hd (by simp [hdne])
    rw [this] at hz
    simp only [Option.some.injEq] at hz
    subst hz
    exact hdsp

theorem getLast?_pyNormL {l : List Char} {c : Char}
    (h : (pyNormL l).getLast? = some c) : isPySpace c = false := by
  unfold pyNormL at h
  rcases getLast?_ampToAnd h with rfl | hz
  · decide
  · unfold dropSpaces at hz
    rw [← List.head?_reverse, ← List.filter_reverse] at hz
    have hw : ∃ d, ((pyLowerL (stripEnds l)).reverse).head? = some d ∧ isPySpace d = false := by
      cases hcw : ((pyLowerL (stripEnds l)).reverse).head? with
      | none =>
        rw [List.head?_eq_none_iff] at hcw
        rw [hcw] at hz
        simp at hz
      | some d =>
        refine ⟨d, rfl, ?_⟩
        unfold pyLowerL at hcw
        rw [← List.map_reverse, List.head?_map] at hcw
        cases hct : (stripEnds l).reverse.head? with
        | none => rw [hct] at hcw; simp at hcw
        | some e =>
          rw [hct] at hcw
          simp at hcw
          subst hcw
          rw [List.head?_reverse] at hct
          exact asciiLower_not_space e (getLast?_stripEnds hct)
    obtain ⟨d, hd, hdsp⟩ := hw
    have hdne : (d == ' ') = false := by
      simp only [beq_eq_false_iff_ne, ne_eq]
      intro hdeq
      subst hdeq
      exact absurd hdsp (by decide)
    have := head?_filter_kept (fun c => !(c == ' ')) hd (by simp [hdne])
    rw [this] at hz
    simp only [Option.some.injEq] at hz
    subst hz
    exact hdsp

theorem stripEnds_pyNormL (l : List Char) : stripEnds (pyNormL l) = pyNormL l := by
  unfold stripEnds
  rw [dropWhile_eq_self_of_head? isPySpace (pyNormL l)
    (fun c hc => head?_pyNormL hc)]
  rw [dropWhile_eq_self_of_head? isPySpace (pyNormL l).reverse
    (fun c hc => getLast?_pyNormL (by rwa [List.head?_reverse] at hc))]
  exact List.reverse_reverse _

theorem pyNormL_idem (l : List Char) : pyNormL (pyNormL l) = pyNormL l := by
  conv_lhs => rw [pyNormL]
  rw [stripEnds_pyNormL]
  have hlow : pyLowerL (pyNormL l) = pyNormL l :=
    map_id_of_fix asciiLower (fun c hc => (mem_pyNormL hc).1)
  rw [hlow]
  have hsp : dropSpaces (pyNormL l) = pyNormL l := by
    unfold dropSpaces
    rw [List.filter_eq_self]
    intro c hc
    simp [(mem_pyNormL hc).2.1]
  rw [hsp]
  exact ampToAnd_id (fun c hc => (mem_pyNormL hc).2.2)

theorem pyNorm_idem (s : String) : pyNorm (pyNorm s) = pyNorm s :=
  congrArg String.mk (pyNormL_idem s.data)

/-! ### Lemmas: the matching loop -/

theorem comboKeyM_enrich (rank : Int) (e : Entry) :
    comboKeyM (enrich rank e) = comboKey e := rfl

/-- Every output of the matching loop is the enrichment of some input entry
that passed all guards; moreover `rank ≠ 0`, the entry's key was fresh, and
no passing entry earlier in the input shares its key. -/
theorem mainLoop_mem {rank : Int} {allRounds : Bool} {inorm : String}
    {nearby : Bool} {minR maxR : Int} :
    ∀ (l : List Entry) (seen : List String) (m : MatchedCollege),
      m ∈ mainLoop rank allRounds inorm nearby minR maxR l seen →
      ∃ l1 e l2, l = l1 ++ e :: l2 ∧
        passLoop rank allRounds inorm nearby minR maxR e ∧
        m = enrich rank e ∧ rank ≠ 0 ∧ comboKey e ∉ seen ∧
        (∀ e2 ∈ l1, passLoop rank allRounds inorm nearby minR maxR e2 →
          comboKey e2 ≠ comboKey e) := by
  intro l
  induction l with
  | nil => intro seen m hm; simp [mainLoop] at hm
  | cons h t ih =>
    intro seen m hm
    unfold mainLoop at hm
    by_cases h1 : ¬allRounds ∧ collapseWs h.round ≠ inorm
    · rw [if_pos h1] at hm
      obtain ⟨l1, e, l2, heq, hp, hm, hr, hk, hfw⟩ := ih seen m hm
      refine ⟨h :: l1, e, l2, by rw [heq]; rfl, hp, hm, hr, hk, ?_⟩
      intro e2 he2 hp2
      rcases List.mem_cons.mp he2 with rfl | he2
      · exact absurd (hp2.1 h1.1) h1.2
      · exact hfw e2 he2 hp2
    · rw [if_neg h1] at hm
      by_cases h2 : nearby ∧ ¬(minR ≤ h.cutoff_rank ∧ h.cutoff_rank ≤ maxR + 75000)
      · rw [if_pos h2] at hm
        obtain ⟨l1, e, l2, heq, hp, hm, hr, hk, hfw⟩ := ih seen m hm
        refine ⟨h :: l1, e, l2, by rw [heq]; rfl, hp, hm, hr, hk, ?_⟩
        intro e2 he2 hp2
        rcases List.mem_cons.mp he2 with rfl | he2
        · exact absurd (hp2.2.1 (by simpa using h2.1)) h2.2
        · exact hfw e2 he2 hp2
      · rw [if_neg h2] at hm
        by_cases h3 : ¬nearby ∧ h.cutoff_rank < rank - 1000
        · rw [if_pos h3] at hm
          obtain ⟨l1, e, l2, heq, hp, hm, hr, hk, hfw⟩ := ih seen m hm
          refine ⟨h :: l1, e, l2, by rw [heq]; rfl, hp, hm, hr, hk, ?_⟩
          intro e2 he2 hp2
          rcases List.mem_cons.mp he2 with rfl | he2
          · exact absurd h3.2 (hp2.2.2 (by simpa using h3.1))
          · exact hfw e2 he2 hp2
        · rw [if_neg h3] at hm
          have hpassh : passLoop rank allRounds inorm nearby minR maxR h := by
            refine ⟨?_, ?_, ?_⟩
            · intro har
              by_contra hne
              exact h1 ⟨har, hne⟩
            · intro hnb
              by_contra hne
              exact h2 ⟨by simp [hnb], hne⟩
            · intro hnb
              by_contra hne
              exact h3 ⟨by simp [hnb], by omega⟩
          by_cases h4 : comboKey h ∈ seen
          · rw [if_pos h4] at hm
            obtain ⟨l1, e, l2, heq, hp, hm, hr, hk, hfw⟩ := ih seen m hm
            refine ⟨h :: l1, e, l2, by rw [heq]; rfl, hp, hm, hr, hk, ?_⟩
            intro e2 he2 hp2
            rcases List.mem_cons.mp he2 with rfl | he2
            · intro hkk
              rw [hkk] at h4
              exact hk h4
            · exact hfw e2 he2 hp2
          · rw [if_neg h4] at hm
            by_cases h5 : rank = 0
            · rw [if_pos h5] at hm
              obtain ⟨l1, e, l2, heq, hp, hm, hr, hk, hfw⟩ := ih _ m hm
              exact absurd h5 hr
            · rw [if_neg h5] at hm
              rcases List.mem_cons.mp hm with rfl | hm
              · exact ⟨[], h, t, rfl, hpassh, rfl, h5, h4, by simp⟩
              · obtain ⟨l1, e, l2, heq, hp, hm2, hr, hk, hfw⟩ := ih _ m hm
                have hke : comboKey e ≠ comboKey h := by
                  intro hkk
                  exact hk (by rw [hkk]; exact List.mem_cons_self _ _)
                refine ⟨h :: l1, e, l2, by rw [heq]; rfl, hp, hm2, hr, ?_, ?_⟩
                · intro hks
                  exact hk (List.mem_cons_of_mem _ hks)
                · intro e2 he2 hp2
                  rcases List.mem_cons.mp he2 with rfl | he2
                  · exact fun hkk => hke hkk.symm
                  · exact hfw e2 he2 hp2

/-- With `rank = 0` every record is skipped by the per-record exception
handler and the loop yields nothing. -/
theorem mainLoop_rank_zero {allRounds : Bool} {inorm : String} {nearby : Bool}
    {minR maxR : Int} :
    ∀ (l : List Entry) (seen : List String),
      mainLoop 0 allRounds inorm nearby minR maxR l seen = [] := by
  intro l
  induction l with
  | nil => intro seen; rfl
  | cons h t ih =>
    intro seen
    unfold mainLoop
    by_cases h1 : ¬allRounds ∧ collapseWs h.round ≠ inorm
    · rw [if_pos h1]; exact ih seen
    · rw [if_neg h1]
      by_cases h2 : nearby ∧ ¬(minR ≤ h.cutoff_rank ∧ h.cutoff_rank ≤ maxR + 75000)
      · rw [if_pos h2]; exact ih seen
      · rw [if_neg h2]
        by_cases h3 : ¬nearby ∧ h.cutoff_rank < (0 : Int) - 1000
        · rw [if_pos h3]; exact ih seen
        · rw [if_neg h3]
          by_cases h4 : comboKey h ∈ seen
          · rw [if_pos h4]; exact ih seen
          · rw [if_neg h4]
            rw [if_pos rfl]
            exact ih _

/-- If an entry passes all guards and no earlier passing entry took its key,
its enrichment is in the loop output (first occurrence wins). -/
theorem mainLoop_first_wins {rank : Int} {allRounds : Bool} {inorm : String}
    {nearby : Bool} {minR maxR : Int} (hr : rank ≠ 0) :
    ∀ (l1 : List Entry) (e : Entry) (l2 : List Entry) (seen : List String),
      passLoop rank allRounds inorm nearby minR maxR e →
      comboKey e ∉ seen →
      (∀ e2 ∈ l1, passLoop rank allRounds inorm nearby minR maxR e2 →
        comboKey e2 ≠ comboKey e) →
      enrich rank e ∈ mainLoop rank allRounds inorm nearby minR maxR (l1 ++ e :: l2) seen := by
  intro l1
  induction l1 with
  | nil =>
    intro e l2 seen hp hk _
    simp only [List.nil_append]
    unfold mainLoop
    rw [if_neg (by
      intro hcon
      exact hcon.2 (hp.1 hcon.1))]
    rw [if_neg (by
      intro hcon
      exact hcon.2 (hp.2.1 (by simp [hcon.1])))]
    rw [if_neg (by
      intro hcon
      exact (hp.2.2 (by simpa using hcon.1)) hcon.2)]
    rw [if_neg hk, if_neg hr]
    exact List.mem_cons_self _ _
  | cons h t ih =>
    intro e l2 seen hp hk hfw
    simp only [List.cons_append]
    unfold mainLoop
    by_cases h1 : ¬allRounds ∧ collapseWs h.round ≠ inorm
    · rw [if_pos h1]
      exact ih e l2 seen hp hk (fun e2 he2 => hfw e2 (List.mem_cons_of_mem _ he2))
    · rw [if_neg h1]
      by_cases h2 : nearby ∧ ¬(minR ≤ h.cutoff_rank ∧ h.cutoff_rank ≤ maxR + 75000)
      · rw [if_pos h2]
        exact ih e l2 seen hp hk (fun e2 he2 => hfw e2 (List.mem_cons_of_mem _ he2))
      · rw [if_neg h2]
        by_cases h3 : ¬nearby ∧ h.cutoff_rank < rank - 1000
        · rw [if_pos h3]
          exact ih e l2 seen hp hk (fun e2 he2 => hfw e2 (List.mem_cons_of_mem _ he2))
        · rw [if_neg h3]
          have hpassh : passLoop rank allRounds inorm nearby minR maxR h := by
            refine ⟨?_, ?_, ?_⟩
            · intro har
              by_contra hne
              exact h1 ⟨har, hne⟩
            · intro hnb
              by_contra hne
              exact h2 ⟨by simp [hnb], hne⟩
            · intro hnb
              by_contra hne
              exact h3 ⟨by simp [hnb], by omega⟩
          have hkh : comboKey h ≠ comboKey e :=
            hfw h (List.mem_cons_self _ _) hpassh
          by_cases h4 : comboKey h ∈ seen
          · rw [if_pos h4]
            exact ih e l2 seen hp hk (fun e2 he2 => hfw e2 (List.mem_cons_of_mem _ he2))
          · rw [if_neg h4, if_neg hr]
            refine List.mem_cons_of_mem _ ?_
            refine ih e l2 _ hp ?_ (fun e2 he2 => hfw e2 (List.mem_cons_of_mem _ he2))
            intro hcon
            rcases List.mem_cons.mp hcon with hc | hc
            · exact hkh hc.symm
            · exact hk hc

/-- The loop output has pairwise distinct dedup keys, none of them in the
initial seen set. -/
theorem mainLoop_keys_distinct {rank : Int} {allRounds : Bool} {inorm : String}
    {nearby : Bool} {minR maxR : Int} :
    ∀ (l : List Entry) (seen : List String),
      (mainLoop rank allRounds inorm nearby minR maxR l seen).Pairwise
        (fun m1 m2 => comboKeyM m1 ≠ comboKeyM m2) ∧
      ∀ m ∈ mainLoop rank allRounds inorm nearby minR maxR l seen,
        comboKeyM m ∉ seen := by
  intro l
  induction l with
  | nil => intro seen; constructor <;> simp [mainLoop]
  | cons h t ih =>
    intro seen
    unfold mainLoop
    by_cases h1 : ¬allRounds ∧ collapseWs h.round ≠ inorm
    · rw [if_pos h1]; exact ih seen
    · rw [if_neg h1]
      by_cases h2 : nearby ∧ ¬(minR ≤ h.cutoff_rank ∧ h.cutoff_rank ≤ maxR + 75000)
      · rw [if_pos h2]; exact ih seen
      · rw [if_neg h2]
        by_cases h3 : ¬nearby ∧ h.cutoff_rank < rank - 1000
        · rw [if_pos h3]; exact ih seen
        · rw [if_neg h3]
          by_cases h4 : comboKey h ∈ seen
          · rw [if_pos h4]; exact ih seen
          · rw [if_neg h4]
            by_cases h5 : rank = 0
            · rw [if_pos h5]
              obtain ⟨hpw, hseen⟩ := ih (comboKey h :: seen)
              exact ⟨hpw, fun m hm hms =>
                hseen m hm (List.mem_cons_of_mem _ hms)⟩
            · rw [if_neg h5]
              obtain ⟨hpw, hseen⟩ := ih (comboKey h :: seen)
              constructor
              · refine List.pairwise_cons.mpr ⟨?_, hpw⟩
                intro m hm
                rw [comboKeyM_enrich]
                intro hkk
                exact hseen m hm (by rw [← hkk]; exact List.mem_cons_self _ _)
              · intro m hm hms
                rcases List.mem_cons.mp hm with rfl | hm
                · rw [comboKeyM_enrich] at hms
                  exact h4 hms
                · exact hseen m hm (List.mem_cons_of_mem _ hms)

/-! ### Lemmas: pre-filter and sorting -/

theorem mem_preFilter {catalog : List Entry} {year category course institute : String}
    {allRounds : Bool} {inorm : String} {e : Entry} :
    e ∈ preFilter catalog year category course institute allRounds inorm ↔
      e ∈ catalog ∧ e.year = year ∧ e.category = category ∧
      (course ≠ "" → e.course = course) ∧
      (institute ≠ "" → instKey e = institute) ∧
      (allRounds = false → pyNorm e.round = inorm) := by
  unfold preFilter passPre
  rw [List.mem_filter]
  constructor
  · rintro ⟨hmem, hcond⟩
    simp only [Bool.and_eq_true, Bool.or_eq_true, beq_iff_eq] at hcond
    obtain ⟨⟨⟨⟨hy, hc⟩, hco⟩, hin⟩, hro⟩ := hcond
    refine ⟨hmem, hy, hc, ?_, ?_, ?_⟩
    · intro hne
      rcases hco with hco | hco
      · exact absurd hco hne
      · exact hco
    · intro hne
      rcases hin with hin | hin
      · exact absurd hin hne
      · exact hin
    · intro har
      rcases hro with hro | hro
      · rw [har] at hro; exact absurd hro (by simp)
      · exact hro
  · rintro ⟨hmem, hy, hc, hco, hin, hro⟩
    refine ⟨hmem, ?_⟩
    simp only [Bool.and_eq_true, Bool.or_eq_true, beq_iff_eq]
    refine ⟨⟨⟨⟨hy, hc⟩, ?_⟩, ?_⟩, ?_⟩
    · by_cases hc0 : course = ""
      · exact Or.inl hc0
      · exact Or.inr (hco hc0)
    · by_cases hi0 : institute = ""
      · exact Or.inl hi0
      · exact Or.inr (hin hi0)
    · rcases Bool.dichotomy allRounds with har | har
      · exact Or.inr (hro har)
      · exact Or.inl har

theorem mem_pySort {l : List MatchedCollege} {m : MatchedCollege} :
    m ∈ pySort l ↔ m ∈ l :=
  List.mem_insertionSort mcLe

theorem pySort_sorted (l : List MatchedCollege) : (pySort l).Pairwise mcLe :=
  List.sorted_insertionSort mcLe l

theorem pySort_chain (l : List MatchedCollege) : (pySort l).Chain' mcLe :=
  (pySort_sorted l).chain'

/-- Stability of the Python sort: records with any fixed sort key keep their
relative order, i.e. filtering the sorted list by a key value gives the same
list as filtering the input. -/
theorem pySort_stable (l : List MatchedCollege) (k : ℕ × Int) :
    (pySort l).filter (fun m => mcKey m == k) = l.filter (fun m => mcKey m == k) := by
  have hsub : List.Sublist (l.filter (fun m => mcKey m == k)) (pySort l) := by
    refine List.sublist_insertionSort ?_ (List.filter_sublist l)
    refine List.pairwise_of_forall_mem_list ?_
    intro a ha b hb
    rw [List.mem_filter] at ha hb
    have hka : mcKey a = k := by simpa using ha.2
    have hkb : mcKey b = k := by simpa using hb.2
    have h1 : mcKeyFst a = mcKeyFst b := by
      have := congrArg Prod.fst (hka.trans hkb.symm)
      simpa [mcKey] using this
    have h2 : a.cutoff_rank = b.cutoff_rank := by
      have := congrArg Prod.snd (hka.trans hkb.symm)
      simpa [mcKey] using this
    exact Or.inr ⟨h1, le_of_eq h2⟩
  have hsub2 : List.Sublist (l.filter (fun m => mcKey m == k))
      ((pySort l).filter (fun m => mcKey m == k)) := by
    have := List.Sublist.filter (fun m => mcKey m == k) hsub
    rwa [List.filter_filter, show (fun m => (mcKey m == k) && (mcKey m == k)) =
      (fun m => mcKey m == k) from funext (fun m => by cases h : (mcKey m == k) <;> simp [h])] at this
  have hperm : ((pySort l).filter (fun m => mcKey m == k)).Perm
      (l.filter (fun m => mcKey m == k)) :=
    List.Perm.filter _ (List.perm_insertionSort mcLe l)
  exact (hsub2.eq_of_length hperm.length_eq.symm).symm

/-! ### Lemmas: unfolding predict -/

theorem predict_eq_tail {catalog : List Entry} {req : Request} {rank : Int}
    {category course year spec roundMatch : String}
    (h1 : pyParseInt req.rank = some rank)
    (h2 : resolveField (normMapOf catalog (·.category)) req.category = some category)
    (h3 : resolveField (normMapOf catalog (·.course)) req.course = some course)
    (h4 : yearSpecOf catalog req.round_name = some (year, spec))
    (h5 : resolveField (normMapOf catalog (·.round)) spec = some roundMatch) :
    predict catalog req = predictTail catalog req rank category course year spec roundMatch := by
  unfold predict
  simp only [h1, h2, h3, h4, h5]

theorem predictTail_success {catalog : List Entry} {req : Request} {rank : Int}
    {category course year spec roundMatch : String} {res : List MatchedCollege}
    (h : predictTail catalog req rank category course year spec roundMatch = .success res) :
    res = pySort (mainLoop rank (isAllRoundsReq req.round_name) (pyNorm spec)
      req.include_nearby (rankWindow req.include_nearby rank).1
      (rankWindow req.include_nearby rank).2
      (preFilter catalog year category course req.institute
        (isAllRoundsReq req.round_name) (pyNorm spec)) []) := by
  simp only [predictTail] at h
  split at h
  · simp at h
  · split at h
    · simp at h
    · simp only [PredictResult.success.injEq] at h
      exact h.symm

theorem predictTail_rank_zero {catalog : List Entry} {req : Request}
    {category course year spec roundMatch : String} {res : List MatchedCollege} :
    predictTail catalog req 0 category course year spec roundMatch ≠ .success res := by
  intro h
  simp only [predictTail] at h
  split at h
  · simp at h
  · rw [mainLoop_rank_zero] at h
    simp at h

/-! ### Lemmas: the resolution maps -/

theorem mem_sortedSet {l : List String} {x : String} : x ∈ sortedSet l ↔ x ∈ l := by
  unfold sortedSet sortStrings
  rw [List.mem_insertionSort, List.mem_dedup]

theorem dictGet_normPairs {vals : List String} {k v : String}
    (h : dictGet (normPairs vals) k = some v) : pyNorm v = k := by
  unfold dictGet at h
  cases hf : (normPairs vals).reverse.find? (fun p => p.1 == k) with
  | none => rw [hf] at h; simp at h
  | some pr =>
    rw [hf] at h
    simp at h
    have hmem := List.mem_of_find?_eq_some hf
    have hpred := List.find?_some hf
    rw [List.mem_reverse] at hmem
    unfold normPairs at hmem
    rw [List.mem_map] at hmem
    obtain ⟨u, _, hpr⟩ := hmem
    rw [← hpr] at hpred
    simp only [beq_iff_eq] at hpred
    rw [← h, ← hpr]
    exact hpred

theorem dictGet_is_key {vals : List String} {k v : String}
    (h : dictGet (normPairs vals) k = some v) : pyNorm k = k := by
  unfold dictGet at h
  cases hf : (normPairs vals).reverse.find? (fun p => p.1 == k) with
  | none => rw [hf] at h; simp at h
  | some pr =>
    have hmem := List.mem_of_find?_eq_some hf
    have hpred := List.find?_some hf
    rw [List.mem_reverse] at hmem
    unfold normPairs at hmem
    rw [List.mem_map] at hmem
    obtain ⟨u, _, hpr⟩ := hmem
    rw [← hpr] at hpred
    simp only [beq_iff_eq] at hpred
    rw [← hpred]
    exact pyNorm_idem u

theorem dictGet_of_mem {vals : List String} {x : String} (hx : x ∈ vals) :
    ∃ v, dictGet (normPairs vals) (pyNorm x) = some v := by
  unfold dictGet
  cases hf : (normPairs vals).reverse.find? (fun p => p.1 == pyNorm x) with
  | none =>
    exfalso
    have hex : ∃ p ∈ (normPairs vals).reverse, (p.1 == pyNorm x) = true := by
      refine ⟨(pyNorm x, x), ?_, by simp⟩
      rw [List.mem_reverse]
      unfold normPairs
      rw [List.mem_map]
      exact ⟨x, hx, rfl⟩
    rw [← List.find?_isSome, hf] at hex
    simp at hex
  | some pr => exact ⟨pr.2, rfl⟩

/-! ### Lemmas: best_match against an empty word -/

theorem lcsLen_b_empty (a : List Char) (alo ahi : ℕ) : lcsLen a [] alo ahi 0 0 = 0 := by
  unfold lcsLen
  have h1 : min (ahi - alo) (0 - 0) + 1 = 1 := by simp
  rw [h1]
  have h2 : (List.range 1).reverse = [0] := by decide
  rw [h2]
  by_cases h : hasBlock a [] alo ahi 0 0 0 = true
  · rw [List.find?_cons_of_pos _ h]
    rfl
  · rw [List.find?_cons_of_neg _ (by simpa using h)]
    rfl

theorem firstBlock_k_zero {a b : List Char} {alo ahi blo bhi : ℕ}
    (h : lcsLen a b alo ahi blo bhi = 0) :
    (firstBlock a b alo ahi blo bhi).2.2 = 0 := by
  simp only [firstBlock, h]
  split <;> rfl

theorem matchTotal_b_empty (fuel : ℕ) (a : List Char) (alo ahi : ℕ) :
    matchTotal (fuel + 1) a [] alo ahi 0 0 = 0 := by
  unfold matchTotal
  rcases hfb : firstBlock a [] alo ahi 0 0 with ⟨i, j, k⟩
  have hk : k = 0 := by
    have hz := firstBlock_k_zero (lcsLen_b_empty a alo ahi)
    rwa [hfb] at hz
  subst hk
  simp

theorem matchM_nil_right (a : List Char) : matchM a [] = 0 := by
  unfold matchM
  simp only [List.length_nil, Nat.add_zero]
  exact matchTotal_b_empty a.length a 0 a.length

theorem bmStep_epsilon {acc : Option (String × ℕ × ℕ)} {x : String} {pr : String × ℕ × ℕ}
    (hacc : ∀ q, acc = some q → q.1 = "")
    (h : bmStep [] acc x = some pr) : pr.1 = "" := by
  by_cases hx : x.data = []
  · have hxe : x = "" := by
      cases x with
      | mk d =>
        simp only at hx
        rw [hx]
    subst hxe
    cases acc with
    | none =>
      simp only [bmStep] at h
      split at h
      · rw [← Option.some.inj h]
      · exact Option.noConfusion h
    | some q =>
      obtain ⟨bx, bM, bT⟩ := q
      have hbx : bx = "" := hacc (bx, bM, bT) rfl
      simp only [bmStep] at h
      split at h
      · split at h
        · rw [← Option.some.inj h]
        · rw [← Option.some.inj h]
          exact hbx
      · rw [← Option.some.inj h]
        exact hbx
  · simp only [bmStep] at h
    have hT : x.data.length ≠ 0 := fun hc => hx (List.length_eq_zero.mp hc)
    have hok : simOK (matchM x.data []) (x.data.length + List.length ([] : List Char)) = false := by
      rw [matchM_nil_right]
      unfold simOK
      simp only [List.length_nil, Nat.add_zero, Bool.or_eq_false_iff,
        decide_eq_false_iff_not]
      exact ⟨hT, by omega⟩
    rw [hok] at h
    simp only [Bool.false_eq_true, if_false] at h
    exact hacc pr h

theorem foldl_bmStep_epsilon :
    ∀ (ks : List String) (acc : Option (String × ℕ × ℕ)),
      (∀ q, acc = some q → q.1 = "") →
      ∀ pr, ks.foldl (bmStep []) acc = some pr → pr.1 = "" := by
  intro ks
  induction ks with
  | nil => intro acc hacc pr h; exact hacc pr h
  | cons x t ih =>
    intro acc hacc pr h
    rw [List.foldl_cons] at h
    refine ih (bmStep [] acc x) ?_ pr h
    intro q hq
    exact bmStep_epsilon hacc hq

theorem bestMatch_epsilon {keys : List String} {x : String}
    (h : bestMatch "" keys = some x) : x = "" := by
  unfold bestMatch at h
  cases hf : List.foldl (bmStep "".data) none keys with
  | none => rw [hf] at h; simp at h
  | some pr =>
    rw [hf] at h
    simp at h
    rw [← h]
    exact foldl_bmStep_epsilon keys none (by intro q hq; cases hq) pr hf

/-- If resolution of a field succeeds and some catalog value of that field
normalizes to the normalized input, then the resolved value normalizes to the
normalized input as well (the exact-lookup path always fires in this
situation, and the final re-lookup maps keys to values of the same
normalization, using idempotence of the normalizer). -/
theorem resolveField_norm {catalog : List Entry} {f : Entry → String} {input rm : String}
    (hres : resolveField (normMapOf catalog f) input = some rm)
    (hkey : ∃ e ∈ catalog, pyNorm (f e) = pyNorm input) :
    pyNorm rm = pyNorm input := by
  obtain ⟨e, hmem, hnorm⟩ := hkey
  have hvals : f e ∈ sortedSet (catalog.map f) :=
    mem_sortedSet.mpr (List.mem_map.mpr ⟨e, hmem, rfl⟩)
  obtain ⟨v, hv⟩ := dictGet_of_mem hvals
  rw [hnorm] at hv
  unfold resolveField at hres
  unfold normMapOf at hres
  rw [hv] at hres
  have hvnorm : pyNorm v = pyNorm input := dictGet_normPairs hv
  by_cases hve : v = ""
  · -- the exact hit is falsy; the input normalizes to "" and best_match can
    -- only return "" (or nothing), both falsy, contradicting success
    subst hve
    have hin0 : pyNorm input = "" := by rw [← hvnorm]; rfl
    rw [hin0] at hres
    cases hbm : bestMatch "" (dictKeys (normPairs (sortedSet (catalog.map f)))) with
    | none => rw [hbm] at hres; simp [pyOr] at hres
    | some c =>
      have hc0 : c = "" := bestMatch_epsilon hbm
      subst hc0
      rw [hbm] at hres
      simp [pyOr] at hres
  · simp only [pyOr, if_neg hve] at hres
    simp only [Option.some.injEq] at hres
    cases hg2 : dictGet (normPairs (sortedSet (catalog.map f))) v with
    | none =>
      rw [hg2] at hres
      simp only [Option.getD_none] at hres
      rw [← hres]
      exact hvnorm
    | some w =>
      rw [hg2] at hres
      simp only [Option.getD_some] at hres
      have hw : pyNorm w = v := dictGet_normPairs hg2
      have hvfix : pyNorm v = v := dictGet_is_key hg2
      rw [← hres, hw, ← hvfix]
      exact hvnorm

/-- Every passing entry is represented in the loop output by its dedup key
(either its key was already seen, or some output record carries it). -/
theorem mainLoop_covers {rank : Int} {allRounds : Bool} {inorm : String}
    {nearby : Bool} {minR maxR : Int} (hr : rank ≠ 0) :
    ∀ (l : List Entry) (seen : List String) (e : Entry), e ∈ l →
      passLoop rank allRounds inorm nearby minR maxR e →
      comboKey e ∈ seen ∨
        ∃ m ∈ mainLoop rank allRounds inorm nearby minR maxR l seen,
          comboKeyM m = comboKey e := by
  intro l
  induction l with
  | nil => intro seen e he; simp at he
  | cons h t ih =>
    intro seen e he hp
    unfold mainLoop
    by_cases hhead : e = h
    · subst hhead
      rw [if_neg (fun hcon => hcon.2 (hp.1 hcon.1))]
      rw [if_neg (fun hcon => hcon.2 (hp.2.1 (by simp [hcon.1])))]
      rw [if_neg (fun hcon => (hp.2.2 (by simpa using hcon.1)) hcon.2)]
      by_cases h4 : comboKey e ∈ seen
      · exact Or.inl h4
      · rw [if_neg h4, if_neg hr]
        exact Or.inr ⟨enrich rank e, List.mem_cons_self _ _, comboKeyM_enrich rank e⟩
    · have het : e ∈ t := by
        rcases List.mem_cons.mp he with hc | hc
        · exact absurd hc hhead
        · exact hc
      by_cases h1 : ¬allRounds ∧ collapseWs h.round ≠ inorm
      · rw [if_pos h1]; exact ih seen e het hp
      · rw [if_neg h1]
        by_cases h2 : nearby ∧ ¬(minR ≤ h.cutoff_rank ∧ h.cutoff_rank ≤ maxR + 75000)
        · rw [if_pos h2]; exact ih seen e het hp
        · rw [if_neg h2]
          by_cases h3 : ¬nearby ∧ h.cutoff_rank < rank - 1000
          · rw [if_pos h3]; exact ih seen e het hp
          · rw [if_neg h3]
            by_cases h4 : comboKey h ∈ seen
            · rw [if_pos h4]; exact ih seen e het hp
            · rw [if_neg h4, if_neg hr]
              rcases ih (comboKey h :: seen) e het hp with hseen | ⟨m, hm, hk⟩
              · rcases List.mem_cons.mp hseen with hc | hc
                · exact Or.inr ⟨enrich rank h, List.mem_cons_self _ _,
                    by rw [comboKeyM_enrich, ← hc]⟩
                · exact Or.inl hc
              · exact Or.inr ⟨m, List.mem_cons_of_mem _ hm, hk⟩

/-! ### Claims -/

/-- C9: the Normalizer is idempotent: for every string `x`,
`normalize(normalize(x)) = normalize(x)`, where `normalize` strips the ends,
lower-cases, removes internal spaces and replaces the ampersand by `and`
(line 699). -/
theorem c9_normalizer_idempotent : ∀ x : String, pyNorm (pyNorm x) = pyNorm x :=
  fun x => pyNorm_idem x

/-- C5: in the result set of a successful non-nearby query every record has
`cutoff_rank ≥ rank - 1000` (line 792); records below that bound are
excluded. -/
theorem c5_non_nearby_rank_bound (catalog : List Entry) (req : Request)
    (rank : Int) (category course year spec roundMatch : String)
    (res : List MatchedCollege)
    (h1 : pyParseInt req.rank = some rank)
    (h2 : resolveField (normMapOf catalog (·.category)) req.category = some category)
    (h3 : resolveField (normMapOf catalog (·.course)) req.course = some course)
    (h4 : yearSpecOf catalog req.round_name = some (year, spec))
    (h5 : resolveField (normMapOf catalog (·.round)) spec = some roundMatch)
    (hnb : req.include_nearby = false)
    (hs : predict catalog req = .success res) :
    ∀ r ∈ res, rank - 1000 ≤ r.cutoff_rank := by
  rw [predict_eq_tail h1 h2 h3 h4 h5] at hs
  have hres := predictTail_success hs
  intro r hr
  rw [hres, mem_pySort] at hr
  obtain ⟨l1, e, l2, _, hp, hm, _, _, _⟩ := mainLoop_mem _ _ _ hr
  have hbound := hp.2.2 hnb
  have hcut : r.cutoff_rank = e.cutoff_rank := by rw [hm]; rfl
  omega

theorem c5_witness : (5000 : Int) - 1000 ≤ c5Result.cutoff_rank :=
  c5_non_nearby_rank_bound c5Catalog c5Req 5000 "GM" "CS" "2024" "R1" "R1"
    [c5Result] (by decide) (by decide) (by decide) (by decide) (by decide)
    rfl (by decide) c5Result (by decide)

/-- C6 (amended): for a successful nearby query every result record lies in
the window `min_rank ≤ cutoff_rank ≤ max_rank + 75000`, where the bounds are
the binary64 computations `int(rank * (1 - 0.15))` and
`int(rank * (1 + 0.15))` of lines 743-745; records outside are excluded. -/
theorem c6_nearby_rank_window (catalog : List Entry) (req : Request)
    (rank : Int) (category course year spec roundMatch : String)
    (res : List MatchedCollege)
    (h1 : pyParseInt req.rank = some rank)
    (h2 : resolveField (normMapOf catalog (·.category)) req.category = some category)
    (h3 : resolveField (normMapOf catalog (·.course)) req.course = some course)
    (h4 : yearSpecOf catalog req.round_name = some (year, spec))
    (h5 : resolveField (normMapOf catalog (·.round)) spec = some roundMatch)
    (hnb : req.include_nearby = true)
    (hs : predict catalog req = .success res) :
    ∀ r ∈ res, (rankWindow true rank).1 ≤ r.cutoff_rank ∧
      r.cutoff_rank ≤ (rankWindow true rank).2 + 75000 := by
  rw [predict_eq_tail h1 h2 h3 h4 h5] at hs
  have hres := predictTail_success hs
  rw [hnb] at hres
  intro r hr
  rw [hres, mem_pySort] at hr
  obtain ⟨l1, e, l2, _, hp, hm, _, _, _⟩ := mainLoop_mem _ _ _ hr
  have hbound := hp.2.1 rfl
  have hcut : r.cutoff_rank = e.cutoff_rank := by rw [hm]; rfl
  exact ⟨by omega, by omega⟩

/-- C6 counterexample: at rank 100 the binary64 computation of line 745
yields `int(100 * (1 + 0.15)) = 114`, while the exact integer truncation of
`100 * 1.15` claimed by the specification is `115`. -/
theorem c6_counterexample :
    (rankWindow true 100).2 = 114 ∧ ((100 : Int) * 23) / 20 = 115 := by decide

theorem c6_witness :
    (rankWindow true 5000).1 ≤ c6Result.cutoff_rank ∧
      c6Result.cutoff_rank ≤ (rankWindow true 5000).2 + 75000 :=
  c6_nearby_rank_window c6Catalog c6Req 5000 "GM" "CS" "2024" "R1" "R1"
    [c6Result] (by decide) (by decide) (by decide) (by decide) (by decide)
    rfl (by decide) c6Result (by decide)

/-- C8: the result list of a successful query is ordered ascending by
`(not likely, cutoff_rank)` (adjacent pairs satisfy `mcLe`), and the sort is
stable: for every key value, filtering the result by that key yields exactly
the pre-sort match list (which is in catalog encounter order) filtered by
that key. -/
theorem c8_result_ordering (catalog : List Entry) (req : Request)
    (rank : Int) (category course year spec roundMatch : String)
    (res : List MatchedCollege)
    (h1 : pyParseInt req.rank = some rank)
    (h2 : resolveField (normMapOf catalog (·.category)) req.category = some category)
    (h3 : resolveField (normMapOf catalog (·.course)) req.course = some course)
    (h4 : yearSpecOf catalog req.round_name = some (year, spec))
    (h5 : resolveField (normMapOf catalog (·.round)) spec = some roundMatch)
    (hs : predict catalog req = .success res) :
    res.Chain' mcLe ∧
    ∀ k, res.filter (fun m => mcKey m == k) =
      (mainLoop rank (isAllRoundsReq req.round_name) (pyNorm spec)
        req.include_nearby (rankWindow req.include_nearby rank).1
        (rankWindow req.include_nearby rank).2
        (preFilter catalog year category course req.institute
          (isAllRoundsReq req.round_name) (pyNorm spec)) []).filter
        (fun m => mcKey m == k) := by
  rw [predict_eq_tail h1 h2 h3 h4 h5] at hs
  have hres := predictTail_success hs
  rw [hres]
  exact ⟨pySort_chain _, fun k => pySort_stable _ k⟩

theorem c8_witness : c8Res.Chain' mcLe :=
  (c8_result_ordering c8Catalog c8Req 5000 "GM" "CS" "2024" "R1" "R1" c8Res
    (by decide) (by decide) (by decide) (by decide) (by decide) (by decide)).1

/-- C1 (amended): the round part of the filter also compares the
whitespace-collapsed lower-cased record round (line 781) against the
space-free normalized input round text, so normalized equality with the
resolved round alone does not make a record pass; still, every record in the
result list of a successful non-all-rounds query satisfies both conditions
with respect to the normalized input round text, and that normalization
coincides with the normalization of the resolved round. -/
theorem c1_round_filter (catalog : List Entry) (req : Request)
    (rank : Int) (category course year spec roundMatch : String)
    (res : List MatchedCollege)
    (h1 : pyParseInt req.rank = some rank)
    (h2 : resolveField (normMapOf catalog (·.category)) req.category = some category)
    (h3 : resolveField (normMapOf catalog (·.course)) req.course = some course)
    (h4 : yearSpecOf catalog req.round_name = some (year, spec))
    (h5 : resolveField (normMapOf catalog (·.round)) spec = some roundMatch)
    (hall : isAllRoundsReq req.round_name = false)
    (hs : predict catalog req = .success res) :
    ∀ r ∈ res, pyNorm r.round = pyNorm spec ∧ collapseWs r.round = pyNorm spec ∧
      pyNorm r.round = pyNorm roundMatch := by
  rw [predict_eq_tail h1 h2 h3 h4 h5] at hs
  have hres := predictTail_success hs
  rw [hall] at hres
  intro r hr
  rw [hres, mem_pySort] at hr
  obtain ⟨l1, e, l2, heq, hp, hm, _, _, _⟩ := mainLoop_mem _ _ _ hr
  have hepre : e ∈ preFilter catalog year category course req.institute false (pyNorm spec) := by
    rw [heq]
    exact List.mem_append.mpr (Or.inr (List.mem_cons_self _ _))
  rw [mem_preFilter] at hepre
  obtain ⟨hecat, _, _, _, _, hnorm⟩ := hepre
  have henorm : pyNorm e.round = pyNorm spec := hnorm rfl
  have hcoll : collapseWs e.round = pyNorm spec := hp.1 (by simp)
  have hrm : pyNorm roundMatch = pyNorm spec :=
    resolveField_norm h5 ⟨e, hecat, henorm⟩
  have hround : r.round = e.round := by rw [hm]; rfl
  rw [hround]
  exact ⟨henorm, hcoll, by rw [henorm, hrm]⟩

theorem c1_counterexample :
    pyNorm "Round A" = pyNorm "Round A" ∧
    resolveField (normMapOf c1Catalog (·.round)) "rounda" = some "Round A" ∧
    isAllRoundsReq c1Req.round_name = false ∧
    predict c1Catalog c1Req = .noCollegesMessage "2024" "Round A" false "GM"
      "CS" "" "4000 to 3000" ["2024"] ["GM"] ["Round A"] := by decide

theorem c1_witness :
    pyNorm c1WResult.round = pyNorm "r7" ∧ collapseWs c1WResult.round = pyNorm "r7" ∧
      pyNorm c1WResult.round = pyNorm "R7" :=
  c1_round_filter c1WCatalog c1WReq 6000 "GM" "CS" "2024" "r7" "R7"
    [c1WResult] (by decide) (by decide) (by decide) (by decide) (by decide)
    (by decide) (by decide) c1WResult (by decide)

theorem comboKeyM_congr {a b : MatchedCollege} (h : mcTuple a = mcTuple b) :
    comboKeyM a = comboKeyM b := by
  unfold mcTuple at h
  simp only [Prod.mk.injEq] at h
  obtain ⟨h1, h2, h3, h4, h5, h6⟩ := h
  unfold comboKeyM
  rw [h1, h2, h3, h4, h5, h6]

/-- C4 (amended): when `round_name` contains "all rounds" the flag is set and
the round filters are skipped, so for a successful all-rounds query every
catalog entry of the resolved year that passes the category/course/institute
and rank conditions is represented in the result by its dedup key, whatever
its round; the round text is nevertheless still passed through the resolver
(hypothesis `h5`), and resolution can fail — see the counterexample. -/
theorem c4_all_rounds_spans (catalog : List Entry) (req : Request)
    (rank : Int) (category course year spec roundMatch : String)
    (res : List MatchedCollege)
    (h1 : pyParseInt req.rank = some rank)
    (h2 : resolveField (normMapOf catalog (·.category)) req.category = some category)
    (h3 : resolveField (normMapOf catalog (·.course)) req.course = some course)
    (h4 : yearSpecOf catalog req.round_name = some (year, spec))
    (h5 : resolveField (normMapOf catalog (·.round)) spec = some roundMatch)
    (hall : isAllRoundsReq req.round_name = true)
    (hs : predict catalog req = .success res) :
    ∀ e ∈ catalog, e.year = year → e.category = category →
      (course ≠ "" → e.course = course) →
      (req.institute ≠ "" → instKey e = req.institute) →
      (req.include_nearby = true →
        (rankWindow req.include_nearby rank).1 ≤ e.cutoff_rank ∧
          e.cutoff_rank ≤ (rankWindow req.include_nearby rank).2 + 75000) →
      (req.include_nearby = false → ¬(e.cutoff_rank < rank - 1000)) →
      ∃ m ∈ res, comboKeyM m = comboKey e := by
  have hr0 : rank ≠ 0 := by
    intro hz
    subst hz
    rw [predict_eq_tail h1 h2 h3 h4 h5] at hs
    exact predictTail_rank_zero hs
  rw [predict_eq_tail h1 h2 h3 h4 h5] at hs
  have hres := predictTail_success hs
  rw [hall] at hres
  intro e hecat hy hc hco hin hwn hwb
  have hepre : e ∈ preFilter catalog year category course req.institute true (pyNorm spec) := by
    rw [mem_preFilter]
    exact ⟨hecat, hy, hc, hco, hin, fun hcon => absurd hcon (by simp)⟩
  have hpass : passLoop rank true (pyNorm spec) req.include_nearby
      (rankWindow req.include_nearby rank).1 (rankWindow req.include_nearby rank).2 e :=
    ⟨fun hcon => absurd rfl hcon, hwn, hwb⟩
  rcases mainLoop_covers hr0 _ [] e hepre hpass with hseen | ⟨m, hm, hk⟩
  · simp at hseen
  · refine ⟨m, ?_, hk⟩
    rw [hres, mem_pySort]
    exact hm

theorem c4_counterexample :
    isAllRoundsReq c4Req.round_name = true ∧
    predict c4Catalog c4Req = .unknownRound "all rounds" ["mockround"] := by decide

theorem c4_witness :
    c4WRes.any (fun m => comboKeyM m == comboKey c4WEntry) = true := by
  obtain ⟨m, hm, hk⟩ := c4_all_rounds_spans c4WCatalog c4WReq 5000 "GM" "CS"
    "2024" "all rounds" "All Rounds" c4WRes (by decide) (by decide) (by decide)
    (by decide) (by decide) (by decide) (by decide) c4WEntry (by decide)
    (by decide) (by decide) (by decide) (by decide)
    (fun hcon => absurd hcon (by decide)) (fun hcon => by decide)
  rw [List.any_eq_true]
  exact ⟨m, hm, by simp [hk]⟩

/-- C7 (amended): the result list of a successful query has pairwise
distinct composite tuples (institute_code, course_code, category,
cutoff_rank, year, round); deduplication is performed on the
underscore-joined string of those six fields, and the first filtered entry
whose string key has not been taken before is the one emitted.  When two
records with distinct tuples collide on the joined string (underscores
inside fields), a later record is dropped even though its tuple is not in
the result — see the counterexample. -/
theorem c7_dedup_first_wins (catalog : List Entry) (req : Request)
    (rank : Int) (category course year spec roundMatch : String)
    (res : List MatchedCollege)
    (h1 : pyParseInt req.rank = some rank)
    (h2 : resolveField (normMapOf catalog (·.category)) req.category = some category)
    (h3 : resolveField (normMapOf catalog (·.course)) req.course = some course)
    (h4 : yearSpecOf catalog req.round_name = some (year, spec))
    (h5 : resolveField (normMapOf catalog (·.round)) spec = some roundMatch)
    (hs : predict catalog req = .success res) :
    res.Pairwise (fun a b => mcTuple a ≠ mcTuple b) ∧
    ∀ l1 e l2,
      preFilter catalog year category course req.institute
        (isAllRoundsReq req.round_name) (pyNorm spec) = l1 ++ e :: l2 →
      passLoop rank (isAllRoundsReq req.round_name) (pyNorm spec)
        req.include_nearby (rankWindow req.include_nearby rank).1
        (rankWindow req.include_nearby rank).2 e →
      (∀ e2 ∈ l1, passLoop rank (isAllRoundsReq req.round_name) (pyNorm spec)
        req.include_nearby (rankWindow req.include_nearby rank).1
        (rankWindow req.include_nearby rank).2 e2 →
        comboKey e2 ≠ comboKey e) →
      enrich rank e ∈ res := by
  have hr0 : rank ≠ 0 := by
    intro hz
    subst hz
    rw [predict_eq_tail h1 h2 h3 h4 h5] at hs
    exact predictTail_rank_zero hs
  rw [predict_eq_tail h1 h2 h3 h4 h5] at hs
  have hres := predictTail_success hs
  constructor
  · rw [hres]
    have hpw := (@mainLoop_keys_distinct rank (isAllRoundsReq req.round_name)
      (pyNorm spec) req.include_nearby
      ((rankWindow req.include_nearby rank).1)
      ((rankWindow req.include_nearby rank).2)
      (preFilter catalog year category course req.institute
        (isAllRoundsReq req.round_name) (pyNorm spec)) []).1
    have hsymm : ∀ {x y : MatchedCollege},
        comboKeyM x ≠ comboKeyM y → comboKeyM y ≠ comboKeyM x :=
      fun h hc => h hc.symm
    have hperm := List.perm_insertionSort mcLe
      (mainLoop rank (isAllRoundsReq req.round_name) (pyNorm spec)
        req.include_nearby (rankWindow req.include_nearby rank).1
        (rankWindow req.include_nearby rank).2
        (preFilter catalog year category course req.institute
          (isAllRoundsReq req.round_name) (pyNorm spec)) [])
    have hpw2 := (List.Perm.pairwise_iff hsymm hperm).mpr hpw
    exact hpw2.imp (fun hne hteq => hne (comboKeyM_congr hteq))
  · intro l1 e l2 hsplit hp hfw
    have hin := mainLoop_first_wins hr0 l1 e l2 [] hp (by simp) hfw
    rw [← hsplit] at hin
    rw [hres, mem_pySort]
    exact hin

theorem c7_counterexample :
    c7A ≠ c7B ∧ comboKey c7A = comboKey c7B ∧
    predict c7Catalog c7Req = .success
      [⟨"Inst A", "E", 5, "Computers Science And Engineering", "CS", "GM",
        "R_CS_GM_9_2024_Z", "2024", false, ((5 - 50) * 100, 50)⟩] := by decide

theorem c7_witness : c7WRes.Pairwise (fun a b => mcTuple a ≠ mcTuple b) :=
  (c7_dedup_first_wins c7WCatalog c7WReq 5000 "GM" "CS" "2024" "R1" "R1"
    c7WRes (by decide) (by decide) (by decide) (by decide) (by decide)
    (by decide)).1

/-- C10 (amended): when the rank parses to 0, the `rank_diff` computation of
every record raises a division-by-zero that the per-record handler catches,
skipping the record; hence `predict` never returns an enriched result list,
and when resolution succeeds and the pre-filter is non-empty it returns the
no-colleges message response.  (A resolution failure on such a query still
returns its 400 error, not the message — see the counterexample.) -/
theorem c10_rank_zero (catalog : List Entry) (req : Request)
    (h0 : pyParseInt req.rank = some 0) :
    (∀ res, predict catalog req ≠ .success res) ∧
    (∀ category course year spec roundMatch,
      resolveField (normMapOf catalog (·.category)) req.category = some category →
      resolveField (normMapOf catalog (·.course)) req.course = some course →
      yearSpecOf catalog req.round_name = some (year, spec) →
      resolveField (normMapOf catalog (·.round)) spec = some roundMatch →
      preFilter catalog year category course req.institute
        (isAllRoundsReq req.round_name) (pyNorm spec) ≠ [] →
      predict catalog req = .noCollegesMessage year roundMatch
        (isAllRoundsReq req.round_name) category course req.institute
        (toString (rankWindow req.include_nearby 0).1 ++ " to " ++
          toString (if req.include_nearby then
            (rankWindow req.include_nearby 0).2 + 75000 else (0 : Int) - 1000))
        (sortedSet (catalog.map (·.year))) (sortedSet (catalog.map (·.category)))
        (sortedSet (catalog.map (·.round)))) := by
  constructor
  · intro res hc
    unfold predict at hc
    simp only [h0] at hc
    split at hc
    · simp at hc
    · split at hc
      · simp at hc
      · split at hc
        · simp at hc
        · split at hc
          · simp at hc
          · exact predictTail_rank_zero hc
  · intro category course year spec roundMatch h2 h3 h4 h5 hfil
    rw [predict_eq_tail h0 h2 h3 h4 h5]
    simp only [predictTail]
    rw [if_neg (fun hcon => hfil (List.isEmpty_iff.mp hcon))]
    rw [mainLoop_rank_zero]
    rfl

theorem c10_counterexample :
    pyParseInt c10Req.rank = some 0 ∧
    predict c10Catalog c10Req = .unknownCategory "qqqq" ["gm"] := by decide

theorem c10_witness : predict c10Catalog c10WReq ≠ .success [] :=
  (c10_rank_zero c10Catalog c10WReq (by decide)).1 []

theorem c2_code_bug :
    predict c2Catalog c2Req = .noCollegesMessage "2024" "Round 1" false "GM"
      "CS" "" "5000 to 4000" ["2024"] ["GM"] ["Round 1"] := by decide

theorem c3_code_bug :
    c3Req.course = "" ∧ predict c3Catalog c3Req = .unknownCourse "" ["cs"] := by
  decide

end KCET

